import Mathlib

/-!
The mobile lite interpreter (`torch/csrc/jit/lite_interpreter/lite_interpreter.cpp`)

A shallow embedding of `torch::jit::mobile::InterpreterState` and its dispatch
loop `run`, followed by theorems about single steps of the loop.

Conventions of the embedding

* The operand stack (`Stack = std::vector<IValue>`) is a `List IValue` whose
  last element is the top of the stack (`stack.back()`).
* `registers_` is a `List IValue`; `reg(r)` is `*(registers_.end() - r)`.
* One pass through the body of `while (true)` without the fetch is `exec`;
  with the fetch `instructions_[pc]` it is `step`; `runFor` iterates `step`.
* An `Outcome` records how one pass ends: the `break` that continues the loop,
  `return false` of `RET`, a fatal error (exception or failed assertion,
  together with the state at the point of failure), or behaviour that C++
  leaves undefined (reads and writes outside a vector).
-/

namespace LiteInterpreter

/-- The opcodes `run` switches on, in the order of the `case` labels. -/
inductive OpCode where
  | OP
  | LOAD
  | MOVE
  | STORE
  | STOREN
  | DROP
  | DROPR
  | LOADC
  | GET_ATTR
  | SET_ATTR
  | LIST_CONSTRUCT
  | JF
  | JMP
  | LOOP
  | CALL
  | INTERFACE_CALL
  | RET
  | WAIT
  | GUARD
  | TAIL_CALL
  deriving DecidableEq, Repr

/-- Modelled from the spec: the declaration of `Instruction` is not part of the
source file. The spec gives it the shape "opcode + up to two integer operands":
`X` is a signed machine integer (register index, relative jump offset, count),
`N` a non-negative count or selector. -/
structure Instruction where
  op : OpCode
  X : Int
  N : Nat
  deriving DecidableEq, Repr

/-- Modelled from the spec: the tagged dynamic value `IValue`, whose declaration
is not part of the source file. The variants are the ones the interpreter
inspects: the empty value `IValue()`, Int64, Double (the payload is kept as its
bit pattern, the interpreter never computes with it), Bool, the opaque compute
handle (a tensor, kept as a handle number), the four type-specialised lists, the
heterogeneous list and a structured-object reference. -/
inductive IValue where
  | none
  | int (v : Int)
  | double (bits : Nat)
  | bool (b : Bool)
  | tensor (handle : Nat)
  | intList (vs : List Int)
  | doubleList (vs : List Nat)
  | boolList (vs : List Bool)
  | tensorList (vs : List Nat)
  | genericList (vs : List IValue)
  | object (ref : Nat)

/-- Tags of the dynamic value. -/
inductive Tag where
  | None
  | Int
  | Double
  | Bool
  | Tensor
  | IntList
  | DoubleList
  | BoolList
  | TensorList
  | GenericList
  | Object
  deriving DecidableEq, Repr

/-- The tag a value was constructed with. -/
def IValue.tag : IValue → Tag
  | .none => .None
  | .int _ => .Int
  | .double _ => .Double
  | .bool _ => .Bool
  | .tensor _ => .Tensor
  | .intList _ => .IntList
  | .doubleList _ => .DoubleList
  | .boolList _ => .BoolList
  | .tensorList _ => .TensorList
  | .genericList _ => .GenericList
  | .object _ => .Object

/-- Modelled from the spec: `IValue::toInt`, a tag-asserting accessor ("any
failed value-tag assertion ... terminates execution"); `none` is the failed
assertion. -/
def IValue.toInt : IValue → Option Int
  | .int v => some v
  | _ => Option.none

/-- Modelled from the spec: `IValue::toDouble`, a tag-asserting accessor. -/
def IValue.toDouble : IValue → Option Nat
  | .double d => some d
  | _ => Option.none

/-- Modelled from the spec: `IValue::toBool`, a tag-asserting accessor. -/
def IValue.toBool : IValue → Option Bool
  | .bool b => some b
  | _ => Option.none

/-- Modelled from the spec: `IValue::toTensor`, a tag-asserting accessor. -/
def IValue.toTensor : IValue → Option Nat
  | .tensor h => some h
  | _ => Option.none

/-- Modelled from the spec: `IValue::toObject`, a tag-asserting accessor. -/
def IValue.toObject : IValue → Option Nat
  | .object r => some r
  | _ => Option.none

/-- Operator identifier stored in `op_names_`. -/
structure OperatorName where
  name : String
  overload_name : String
  deriving DecidableEq, Repr

/-- What a boxed operator call does to the stack it is handed: it returns with a
new stack, or it throws, leaving some stack behind. -/
inductive CallResult where
  | returned (stack : List IValue)
  | threw (stack : List IValue)

/-- Modelled from the spec: `c10::Dispatcher`, the External Operator Registry,
which is outside the source file. `findSchema` is `lookup(name) ->
optional<Callable>` (a callable is a handle number), `callBoxed` is
`invoke(Callable, &OperandStack)`. -/
structure Dispatcher where
  findSchema : OperatorName → Option Nat
  callBoxed : Nat → List IValue → CallResult

/-- The input of the constructor: `Bytecode`, read through the four members the
constructor copies. -/
structure Bytecode where
  instructions_ : List Instruction
  op_names_ : List OperatorName
  constants_ : List IValue
  agg_size_ : Nat

/-- What `GET_ATTR` writes to `std::cout`: a line about an object value or a
line about a tensor value. -/
inductive Printed where
  | obj (ref : Nat)
  | tensor (handle : Nat)
  deriving DecidableEq, Repr

/-- The mutable state of one `run`: the caller's `stack`, the member
`registers_`, the local `pc` (a `size_t`), the slots of the structured objects
that object references point to, and the lines written to `std::cout`. -/
structure State where
  stack : List IValue
  registers_ : List IValue
  pc : Nat
  objects : List (List IValue)
  cout : List Printed

/-- The kinds of fatal error a pass through the loop can end with. -/
inductive Fault where
  /-- Raised by `AT_ERROR(msg)` in the five unsupported opcodes. -/
  | unsupportedOpcode (msg : String)
  /-- The failed `assert(op.has_value())` of `OP` in a build without `NDEBUG`:
  `abort()` ends the process. -/
  | assertFailed
  /-- A failed tag assertion of an `IValue` accessor; `expected` is the tag the
  accessor asserts. -/
  | typeMismatch (expected : Tag)
  /-- The operator called by `OP` threw. -/
  | operatorThrew
  /-- Thrown by `vals.reserve(inst.X)` when the count is negative, so that its
  conversion to `size_t` exceeds every possible capacity. -/
  | lengthError
  deriving DecidableEq, Repr

/-- How one pass through the body of `while (true)` ends. -/
inductive Outcome where
  /-- The `break` of the switch: the loop goes on from the new state. -/
  | next (s : State)
  /-- The statement `return false` of `RET`. -/
  | ret (s : State)
  /-- Fatal error, with the state at the point of failure. -/
  | fatal (e : Fault) (s : State)
  /-- Behaviour C++ leaves undefined. -/
  | undefined

/-- The arithmetic of `size_t`: the value of `pc` after `pc += d`, where `d` is
converted to `size_t` and the sum is taken modulo `2 ^ 64`; `++pc` is
`pcAdd pc 1`. -/
def pcAdd (pc : Nat) (d : Int) : Nat :=
  (((pc : Int) + d) % (2 : Int) ^ 64).toNat

/-- Two's-complement wrap of a mathematical integer into `int64_t`. -/
def wrapInt64 (z : Int) : Int :=
  (z + (2 : Int) ^ 63) % (2 : Int) ^ 64 - (2 : Int) ^ 63

/-- Element `i` of a vector read with `operator[]`; outside the vector the read
is undefined (`none`). -/
def vecAt {α : Type} (v : List α) (i : Int) : Option α :=
  if 0 ≤ i then v[i.toNat]? else Option.none

/-- Modelled from the spec: `pop(stack)` of the stack helpers, which takes the
last element off; on an empty stack it is undefined (`none`). -/
def pop (stack : List IValue) : Option (IValue × List IValue) :=
  match stack.getLast? with
  | some v => some (v, stack.dropLast)
  | Option.none => Option.none

/-- Modelled from the spec: `drop(stack, n)` of the stack helpers, which erases
the last `n` elements; with fewer than `n` elements it is undefined. -/
def drop (stack : List IValue) (n : Int) : Option (List IValue) :=
  if 0 ≤ n ∧ n ≤ stack.length then some (stack.take (stack.length - n.toNat)) else Option.none

/-- Modelled from the spec: `peekSlice(stack, 0, n, n)` of the stack helpers,
the last `n` elements in stack order; with fewer than `n` elements it is
undefined. -/
def peekSlice (stack : List IValue) (n : Int) : Option (List IValue) :=
  if 0 ≤ n ∧ n ≤ stack.length then some (stack.drop (stack.length - n.toNat)) else Option.none

/-- The slot `registers_.end() - reg` of `InterpreterState::reg` as a position in
`registers_`, when it lies inside the vector: `reg` is converted to `size_t`,
and a vector of values has fewer than `2 ^ 63` elements, so the slot is inside
exactly when `1 ≤ reg ≤ registers_.size()`. -/
def regSlot (registers_ : List IValue) (reg : Int) : Option Nat :=
  if 1 ≤ reg ∧ reg ≤ registers_.length then some (registers_.length - reg.toNat) else Option.none

/-- Reading `reg(r)`. -/
def regGet (registers_ : List IValue) (reg : Int) : Option IValue :=
  match regSlot registers_ reg with
  | some k => registers_[k]?
  | Option.none => Option.none

/-- Assigning `reg(r) = v`. -/
def regSet (registers_ : List IValue) (reg : Int) (v : IValue) : Option (List IValue) :=
  match regSlot registers_ reg with
  | some k => some (registers_.set k v)
  | Option.none => Option.none

/-- Modelled from the spec: `getSlot(index)` of the structured-object interface,
the value in slot `X` of the object `ref` points to; a slot the object does not
have is undefined. -/
def getSlot (objects : List (List IValue)) (ref : Nat) (X : Int) : Option IValue :=
  match objects[ref]? with
  | some slots => vecAt slots X
  | Option.none => Option.none

/-- Modelled from the spec: `setSlot(index, value)` of the structured-object
interface, which stores `v` in slot `X` of the object `ref` points to; a slot
the object does not have is undefined. -/
def setSlot (objects : List (List IValue)) (ref : Nat) (X : Int) (v : IValue) :
    Option (List (List IValue)) :=
  match objects[ref]? with
  | some slots =>
    if 0 ≤ X ∧ X < slots.length then some (objects.set ref (slots.set X.toNat v)) else Option.none
  | Option.none => Option.none

/-- The call `fmap(inputs, f)` with a conversion `f` that can fail: the inputs
are converted in order, and the first failed conversion fails the whole call. -/
def fmap {α : Type} (toElem : IValue → Option α) : List IValue → Option (List α)
  | [] => some []
  | v :: rest =>
    match toElem v with
    | Option.none => Option.none
    | some a =>
      match fmap toElem rest with
      | Option.none => Option.none
      | some vals => some (a :: vals)

/-- The template `ListConstructFunc<dtype>`, given the accessor `v.to<dtype>()`
and the list constructor for `dtype`: the last `num_inputs` values are read in
stack order and converted one after the other, the first failed conversion
throws before the stack is changed; then the inputs are dropped and the list is
pushed. The result is the new stack, `none` for a failed conversion, or
undefined behaviour (outer `none`) when the stack is too short. -/
def ListConstructFunc {α : Type} (toElem : IValue → Option α) (mk : List α → IValue)
    (num_inputs : Int) (stack : List IValue) : Option (Option (List IValue)) :=
  match peekSlice stack num_inputs with
  | Option.none => Option.none
  | some inputs =>
    match fmap toElem inputs with
    | Option.none => some Option.none
    | some vals =>
      match drop stack num_inputs with
      | Option.none => Option.none
      | some stack1 => some (some (stack1 ++ [mk vals]))

/-- Result of the element loop of the tensor path of `LIST_CONSTRUCT`. -/
inductive TensorLoop where
  | done (vals : List Nat) (stack : List IValue)
  | mismatch (stack : List IValue)
  | outside

/-- The loop `for (i = stack_size - X; i < stack_size; ++i)
vals.emplace_back(std::move(stack[i]).toTensor())` with `n` iterations left:
`toTensor` asserts the tag and then moves the value out, leaving the empty value
in `stack[i]`. -/
def tensorLoop : Nat → Nat → List IValue → List Nat → TensorLoop
  | 0, _, stack, vals => .done vals stack
  | n + 1, i, stack, vals =>
    match stack[i]? with
    | Option.none => .outside
    | some v =>
      match v.toTensor with
      | Option.none => .mismatch stack
      | some h => tensorLoop n (i + 1) (stack.set i IValue.none) (vals ++ [h])

/-- The loop `for (i = stack_size - X; i < stack_size; ++i)
vals.emplace_back(std::move(stack[i]))` with `n` iterations left: each value is
moved out, leaving the empty value in `stack[i]`. -/
def genericLoop : Nat → Nat → List IValue → List IValue → Option (List IValue × List IValue)
  | 0, _, stack, vals => some (vals, stack)
  | n + 1, i, stack, vals =>
    match stack[i]? with
    | Option.none => Option.none
    | some v => genericLoop n (i + 1) (stack.set i IValue.none) (vals ++ [v])

/-- The loop of `STOREN`, `for (size_t i = N; i > 0; --i) reg(X + i - 1) =
pop(stack)`, with `i` the current value of the loop variable. -/
def storeLoop (X : Int) : Nat → List IValue → List IValue → Option (List IValue × List IValue)
  | 0, stack, registers_ => some (stack, registers_)
  | i + 1, stack, registers_ =>
    match pop stack with
    | Option.none => Option.none
    | some (v, stack1) =>
      match regSet registers_ (X + ((i + 1 : Nat) : Int) - 1) v with
      | Option.none => Option.none
      | some registers1 => storeLoop X i stack1 registers1

/-- The exit loop of `LOOP`, `for (size_t i = 0; i < n_loop_carried; ++i)
frame[i] = std::move(frame[i + 3])`, with `n` iterations left and `frame` at
position `f` of the stack: the move assignment leaves the empty value in
`frame[i + 3]`. -/
def shiftLoop (f : Nat) : Nat → Nat → List IValue → Option (List IValue)
  | 0, _, stack => some stack
  | n + 1, i, stack =>
    match stack[f + i + 3]? with
    | Option.none => Option.none
    | some v => shiftLoop f n (i + 1) ((stack.set (f + i + 3) IValue.none).set (f + i) v)

/-- Case `OP` of the switch. The statement `assert(op.has_value())` is the macro
of `<cassert>`: in a build without `NDEBUG` a lookup miss fails the assertion,
which aborts the process before `callBoxed`; in a build with `NDEBUG` the
statement is empty, and `callBoxed(*op, &stack)` dereferences the empty
optional, which is undefined behaviour. -/
def caseOP (NDEBUG : Bool) (disp : Dispatcher) (code : Bytecode) (inst : Instruction)
    (s : State) : Outcome :=
  match vecAt code.op_names_ inst.X with
  | Option.none => .undefined
  | some opname =>
    match disp.findSchema opname with
    | Option.none => if NDEBUG = true then .undefined else .fatal .assertFailed s
    | some op =>
      match disp.callBoxed op s.stack with
      | .threw stack1 => .fatal .operatorThrew { s with stack := stack1 }
      | .returned stack1 => .next { s with stack := stack1, pc := pcAdd s.pc 1 }

/-- Case `LOAD` of the switch. -/
def caseLOAD (inst : Instruction) (s : State) : Outcome :=
  match regGet s.registers_ inst.X with
  | Option.none => .undefined
  | some v => .next { s with stack := s.stack ++ [v], pc := pcAdd s.pc 1 }

/-- Case `MOVE` of the switch: the value is moved out of the register, which
keeps the empty value. -/
def caseMOVE (inst : Instruction) (s : State) : Outcome :=
  match regGet s.registers_ inst.X, regSet s.registers_ inst.X IValue.none with
  | some v, some registers1 =>
    .next { s with stack := s.stack ++ [v], registers_ := registers1, pc := pcAdd s.pc 1 }
  | _, _ => .undefined

/-- Case `STORE` of the switch. -/
def caseSTORE (inst : Instruction) (s : State) : Outcome :=
  match pop s.stack with
  | Option.none => .undefined
  | some (v, stack1) =>
    match regSet s.registers_ inst.X v with
    | Option.none => .undefined
    | some registers1 =>
      .next { s with stack := stack1, registers_ := registers1, pc := pcAdd s.pc 1 }

/-- Case `STOREN` of the switch. -/
def caseSTOREN (inst : Instruction) (s : State) : Outcome :=
  match storeLoop inst.X inst.N s.stack s.registers_ with
  | Option.none => .undefined
  | some (stack1, registers1) =>
    .next { s with stack := stack1, registers_ := registers1, pc := pcAdd s.pc 1 }

/-- Case `DROP` of the switch. -/
def caseDROP (s : State) : Outcome :=
  match pop s.stack with
  | Option.none => .undefined
  | some (_, stack1) => .next { s with stack := stack1, pc := pcAdd s.pc 1 }

/-- Case `DROPR` of the switch. -/
def caseDROPR (inst : Instruction) (s : State) : Outcome :=
  match regSet s.registers_ inst.X IValue.none with
  | Option.none => .undefined
  | some registers1 => .next { s with registers_ := registers1, pc := pcAdd s.pc 1 }

/-- Case `LOADC` of the switch. -/
def caseLOADC (code : Bytecode) (inst : Instruction) (s : State) : Outcome :=
  match vecAt code.constants_ inst.X with
  | Option.none => .undefined
  | some c => .next { s with stack := s.stack ++ [c], pc := pcAdd s.pc 1 }

/-- The two debug branches of `GET_ATTR` that write to `std::cout`. -/
def printAttr (value : IValue) (cout : List Printed) : List Printed :=
  match value with
  | .object r => cout ++ [Printed.obj r]
  | .tensor h => cout ++ [Printed.tensor h]
  | _ => cout

/-- Case `GET_ATTR` of the switch. -/
def caseGET_ATTR (inst : Instruction) (s : State) : Outcome :=
  match pop s.stack with
  | Option.none => .undefined
  | some (top, stack1) =>
    match top.toObject with
    | Option.none => .fatal (.typeMismatch .Object) { s with stack := stack1 }
    | some userObj =>
      match getSlot s.objects userObj inst.X with
      | Option.none => .undefined
      | some value =>
        .next { s with stack := stack1 ++ [value], cout := printAttr value s.cout,
                       pc := pcAdd s.pc 1 }

/-- Case `SET_ATTR` of the switch. -/
def caseSET_ATTR (inst : Instruction) (s : State) : Outcome :=
  match pop s.stack with
  | Option.none => .undefined
  | some (v, stack1) =>
    match pop stack1 with
    | Option.none => .undefined
    | some (target, stack2) =>
      match target.toObject with
      | Option.none => .fatal (.typeMismatch .Object) { s with stack := stack2 }
      | some userObj =>
        match setSlot s.objects userObj inst.X v with
        | Option.none => .undefined
        | some objects1 => .next { s with stack := stack2, objects := objects1, pc := pcAdd s.pc 1 }

/-- The three branches of `LIST_CONSTRUCT` that call `ListConstructFunc`. -/
def listConstructTyped {α : Type} (expected : Tag) (toElem : IValue → Option α)
    (mk : List α → IValue) (inst : Instruction) (s : State) : Outcome :=
  match ListConstructFunc toElem mk inst.X s.stack with
  | Option.none => .undefined
  | some Option.none => .fatal (.typeMismatch expected) s
  | some (some stack1) => .next { s with stack := stack1, pc := pcAdd s.pc 1 }

/-- Case `LIST_CONSTRUCT` of the switch. -/
def caseLIST_CONSTRUCT (inst : Instruction) (s : State) : Outcome :=
  if inst.N = 1 then
    listConstructTyped .Int IValue.toInt IValue.intList inst s
  else if inst.N = 2 then
    listConstructTyped .Double IValue.toDouble IValue.doubleList inst s
  else if inst.N = 3 then
    listConstructTyped .Bool IValue.toBool IValue.boolList inst s
  else if inst.N = 4 then
    if inst.X < 0 then .fatal .lengthError s
    else if (s.stack.length : Int) < inst.X then .undefined
    else
      match tensorLoop inst.X.toNat (s.stack.length - inst.X.toNat) s.stack [] with
      | .outside => .undefined
      | .mismatch stack1 => .fatal (.typeMismatch .Tensor) { s with stack := stack1 }
      | .done vals stack1 =>
        match drop stack1 inst.X with
        | Option.none => .undefined
        | some stack2 =>
          .next { s with stack := stack2 ++ [IValue.tensorList vals], pc := pcAdd s.pc 1 }
  else
    if inst.X < 0 then .fatal .lengthError s
    else if (s.stack.length : Int) < inst.X then .undefined
    else
      match genericLoop inst.X.toNat (s.stack.length - inst.X.toNat) s.stack [] with
      | Option.none => .undefined
      | some (vals, stack1) =>
        match drop stack1 inst.X with
        | Option.none => .undefined
        | some stack2 =>
          .next { s with stack := stack2 ++ [IValue.genericList vals], pc := pcAdd s.pc 1 }

/-- Case `JF` of the switch: the condition is popped, then its tag asserted. -/
def caseJF (inst : Instruction) (s : State) : Outcome :=
  match pop s.stack with
  | Option.none => .undefined
  | some (top, stack1) =>
    match top.toBool with
    | Option.none => .fatal (.typeMismatch .Bool) { s with stack := stack1 }
    | some b => .next { s with stack := stack1, pc := pcAdd s.pc (if b then 1 else inst.X) }

/-- Case `JMP` of the switch. -/
def caseJMP (inst : Instruction) (s : State) : Outcome :=
  .next { s with pc := pcAdd s.pc inst.X }

/-- Case `LOOP` of the switch. `frame` is `stack.end() - (N + 1)`; the three
control slots are read and tag-asserted in the order of the source. -/
def caseLOOP (inst : Instruction) (s : State) : Outcome :=
  if s.stack.length < inst.N + 1 then .undefined
  else
    let frame := s.stack.length - (inst.N + 1)
    match s.stack[frame]? with
    | Option.none => .undefined
    | some v0 =>
      match v0.toInt with
      | Option.none => .fatal (.typeMismatch .Int) s
      | some trip_count =>
        match s.stack[frame + 1]? with
        | Option.none => .undefined
        | some v1 =>
          match v1.toInt with
          | Option.none => .fatal (.typeMismatch .Int) s
          | some max_trip_count =>
            match s.stack[frame + 2]? with
            | Option.none => .undefined
            | some v2 =>
              match v2.toBool with
              | Option.none => .fatal (.typeMismatch .Bool) s
              | some cond =>
                if trip_count < max_trip_count ∧ cond = true then
                  .next { s with
                    stack := (s.stack.set (frame + 2) (IValue.int trip_count)).set frame
                      (IValue.int (wrapInt64 (trip_count + 1))),
                    pc := pcAdd s.pc 1 }
                else
                  let n_loop_carried := inst.N - 2
                  match shiftLoop frame n_loop_carried 0 s.stack with
                  | Option.none => .undefined
                  | some stack1 =>
                    match drop stack1 3 with
                    | Option.none => .undefined
                    | some stack2 => .next { s with stack := stack2, pc := pcAdd s.pc inst.X }

/-- The body of `switch (inst.op)`: one pass through the loop of `run` once the
instruction has been fetched. -/
def exec (NDEBUG : Bool) (disp : Dispatcher) (code : Bytecode) (inst : Instruction)
    (s : State) : Outcome :=
  match inst.op with
  | .OP => caseOP NDEBUG disp code inst s
  | .LOAD => caseLOAD inst s
  | .MOVE => caseMOVE inst s
  | .STORE => caseSTORE inst s
  | .STOREN => caseSTOREN inst s
  | .DROP => caseDROP s
  | .DROPR => caseDROPR inst s
  | .LOADC => caseLOADC code inst s
  | .GET_ATTR => caseGET_ATTR inst s
  | .SET_ATTR => caseSET_ATTR inst s
  | .LIST_CONSTRUCT => caseLIST_CONSTRUCT inst s
  | .JF => caseJF inst s
  | .JMP => caseJMP inst s
  | .LOOP => caseLOOP inst s
  | .CALL => .fatal (.unsupportedOpcode "Instruction CALL is not supported in mobile.") s
  | .INTERFACE_CALL =>
    .fatal (.unsupportedOpcode "Instruction INTERFACE_CALL is not supported in mobile.") s
  | .RET => .ret s
  | .WAIT => .fatal (.unsupportedOpcode "Instruction WAIT is not supported in mobile.") s
  | .GUARD => .fatal (.unsupportedOpcode "Instruction GUARD is not supported in mobile.") s
  | .TAIL_CALL => .fatal (.unsupportedOpcode "Instruction TAIL_CALL is not supported in mobile.") s

/-- One pass through `while (true)`: the fetch `instructions_[pc]`, undefined
outside the vector, and the switch. -/
def step (NDEBUG : Bool) (disp : Dispatcher) (code : Bytecode) (s : State) : Outcome :=
  match code.instructions_[s.pc]? with
  | Option.none => .undefined
  | some inst => exec NDEBUG disp code inst s

/-- At most `fuel` passes through the loop of `run`: `.next s` when the loop is
still running after `fuel` passes, otherwise the way it ended. -/
def runFor (NDEBUG : Bool) (disp : Dispatcher) (code : Bytecode) : Nat → State → Outcome
  | 0, s => .next s
  | fuel + 1, s =>
    match step NDEBUG disp code s with
    | .next s1 => runFor NDEBUG disp code fuel s1
    | o => o

/-- The constructor `InterpreterState(bytecode)`: `registers_` is resized to
`register_size_ = agg_size_` default-constructed (empty) values. -/
def InterpreterState (bytecode : Bytecode) : List IValue :=
  List.replicate bytecode.agg_size_ IValue.none

/-- The state in which `run(stack)` enters its loop on a fresh
`InterpreterState`: `pc = 0`. -/
def initial (bytecode : Bytecode) (stack : List IValue) (objects : List (List IValue)) : State :=
  { stack := stack, registers_ := InterpreterState bytecode, pc := 0, objects := objects,
    cout := [] }

/-- A build without `NDEBUG`: the macro `assert` checks its condition. -/
def debugBuild : Bool := false

/-- A build with `NDEBUG` defined: the macro `assert` expands to nothing. -/
def releaseBuild : Bool := true

/-- A registry that resolves no operator; calls hand the stack back. -/
def demoDispatcher : Dispatcher :=
  { findSchema := fun _ => Option.none, callBoxed := fun _ stack => CallResult.returned stack }

/-- A bytecode with two registers, one operator name and one constant. -/
def demoBytecode : Bytecode :=
  { instructions_ := [], op_names_ := [{ name := "aten::add", overload_name := "Tensor" }],
    constants_ := [IValue.int 42], agg_size_ := 2 }

/-- A state with the given stack and registers at `pc = 7`. -/
def demoState (stack registers_ : List IValue) : State :=
  { stack := stack, registers_ := registers_, pc := 7, objects := [], cout := [] }

/-- A loop body that leaves the stack as LOOP wrote it except for the condition
slot `frame[2]`, where it puts `true`, and that jumps back to the LOOP
instruction at `pcLoop`; `frame` is the position of the loop window. -/
def bodyKeepsGoing (frame pcLoop : Nat) (s : State) : State :=
  { s with stack := s.stack.set (frame + 2) (IValue.bool true), pc := pcLoop }

/-- The element tag a list-kind selector asks for: 1 is the Int64 list, 2 the
Double list, 3 the Bool list, 4 the list of compute handles; every other
selector is the heterogeneous list, which asks for nothing. -/
def requiredTag (N : Nat) : Option Tag :=
  if N = 1 then some Tag.Int
  else if N = 2 then some Tag.Double
  else if N = 3 then some Tag.Bool
  else if N = 4 then some Tag.Tensor
  else Option.none

/-- The tag of the list value a list-kind selector stands for. -/
def listTag (N : Nat) : Tag :=
  if N = 1 then Tag.IntList
  else if N = 2 then Tag.DoubleList
  else if N = 3 then Tag.BoolList
  else if N = 4 then Tag.TensorList
  else Tag.GenericList

/-- The elements of a list value as dynamic values, in list order. -/
def IValue.elements : IValue → Option (List IValue)
  | .intList vs => some (vs.map IValue.int)
  | .doubleList vs => some (vs.map IValue.double)
  | .boolList vs => some (vs.map IValue.bool)
  | .tensorList vs => some (vs.map IValue.tensor)
  | .genericList vs => some vs
  | _ => Option.none

/-- The instruction assigns to register `r` from the stack: a STORE into `r`, or
a STOREN whose range `X .. X + N - 1` contains `r`. -/
def storesInto (inst : Instruction) (r : Int) : Prop :=
  (inst.op = OpCode.STORE ∧ inst.X = r) ∨
    (inst.op = OpCode.STOREN ∧ inst.X ≤ r ∧ r < inst.X + inst.N)

instance storesInto.decidable (inst : Instruction) (r : Int) : Decidable (storesInto inst r) := by
  unfold storesInto
  exact inferInstance

/-- The passes of the loop for a given sequence of fetched instructions, one
after the other: the state after the last one when every pass ends in the
`break` that continues the loop. -/
def execTrace (NDEBUG : Bool) (disp : Dispatcher) (code : Bytecode) :
    List Instruction → State → Option State
  | [], s => some s
  | inst :: rest, s =>
    match exec NDEBUG disp code inst s with
    | .next s1 => execTrace NDEBUG disp code rest s1
    | _ => Option.none

/-- The spelling of an opcode in the source. -/
def opName : OpCode → String
  | .OP => "OP"
  | .LOAD => "LOAD"
  | .MOVE => "MOVE"
  | .STORE => "STORE"
  | .STOREN => "STOREN"
  | .DROP => "DROP"
  | .DROPR => "DROPR"
  | .LOADC => "LOADC"
  | .GET_ATTR => "GET_ATTR"
  | .SET_ATTR => "SET_ATTR"
  | .LIST_CONSTRUCT => "LIST_CONSTRUCT"
  | .JF => "JF"
  | .JMP => "JMP"
  | .LOOP => "LOOP"
  | .CALL => "CALL"
  | .INTERFACE_CALL => "INTERFACE_CALL"
  | .RET => "RET"
  | .WAIT => "WAIT"
  | .GUARD => "GUARD"
  | .TAIL_CALL => "TAIL_CALL"

/-- The message `AT_ERROR` is given for an unsupported opcode. -/
def unsupportedMessage (op : OpCode) : String :=
  "Instruction " ++ opName op ++ " is not supported in mobile."

/-- A two-instruction stream: a jump by 5 at position 0 and a RET at position 1. -/
def demoProgram : Bytecode :=
  { instructions_ := [⟨OpCode.JMP, 5, 0⟩, ⟨OpCode.RET, 0, 0⟩], op_names_ := [],
    constants_ := [], agg_size_ := 2 }

/-- One cycle of a loop whose body only hands back `true`: the LOOP pass, which
has to continue the run, followed by `bodyKeepsGoing`. -/
def loopCycle (NDEBUG : Bool) (disp : Dispatcher) (code : Bytecode) (inst : Instruction)
    (frame pcLoop : Nat) (s : State) : Option State :=
  match exec NDEBUG disp code inst s with
  | .next s1 => some (bodyKeepsGoing frame pcLoop s1)
  | _ => Option.none

/-- The state before the LOOP pass number `j` (from 0) of such a loop. -/
def loopCycles (NDEBUG : Bool) (disp : Dispatcher) (code : Bytecode) (inst : Instruction)
    (frame pcLoop : Nat) : Nat → State → Option State
  | 0, s => some s
  | j + 1, s =>
    match loopCycles NDEBUG disp code inst frame pcLoop j s with
    | some sj => loopCycle NDEBUG disp code inst frame pcLoop sj
    | Option.none => Option.none

/-- The instructions `STORE (X+N-1), STORE (X+N-2), ..., STORE X`, in that
order. -/
def storeSeq (X : Int) : Nat → List Instruction
  | 0 => []
  | n + 1 => ⟨OpCode.STORE, X + (n : Int), 0⟩ :: storeSeq X n

/-- The state an outcome carries, if any. -/
def Outcome.stateOf : Outcome → Option State
  | .next s => some s
  | .ret s => some s
  | .fatal _ s => some s
  | .undefined => Option.none

/-- Every `pc` the instruction `inst` at position `pc` can hand to the next
fetch lies inside a stream of `n` instructions: `pc + 1` for the opcodes that
go on with `++pc`, `pc + X` for JMP, both for JF and LOOP (sums of `size_t`);
RET and the unsupported opcodes hand on none. -/
def staysInside (n pc : Nat) (inst : Instruction) : Bool :=
  match inst.op with
  | .JMP => decide (pcAdd pc inst.X < n)
  | .JF => decide (pcAdd pc 1 < n) && decide (pcAdd pc inst.X < n)
  | .LOOP => decide (pcAdd pc 1 < n) && decide (pcAdd pc inst.X < n)
  | .RET => true
  | .CALL => true
  | .INTERFACE_CALL => true
  | .WAIT => true
  | .GUARD => true
  | .TAIL_CALL => true
  | _ => decide (pcAdd pc 1 < n)

/-- A stream all of whose instructions keep the next fetch inside the stream. -/
def successorsInside (instructions_ : List Instruction) : Prop :=
  ∀ (pc : Nat) (h : pc < instructions_.length),
    staysInside instructions_.length pc instructions_[pc] = true

instance successorsInside.decidable (instructions_ : List Instruction) :
    Decidable (successorsInside instructions_) := by
  unfold successorsInside
  exact inferInstance

/-- A stream that jumps forward over a RET, loads a constant and jumps back to
the RET. -/
def demoJumps : Bytecode :=
  { instructions_ := [⟨OpCode.JMP, 2, 0⟩, ⟨OpCode.RET, 0, 0⟩, ⟨OpCode.LOADC, 0, 0⟩,
      ⟨OpCode.JMP, -2, 0⟩],
    op_names_ := [], constants_ := [IValue.int 42], agg_size_ := 1 }

/-! ## Lemmas on the helpers -/

theorem pop_concat (pre : List IValue) (v : IValue) : pop (pre ++ [v]) = some (v, pre) := by
  simp [pop]

theorem pcAdd_exact (pc : Nat) (d : Int) (h0 : 0 ≤ (pc : Int) + d) (h1 : (pc : Int) + d < 2 ^ 64) :
    ((pcAdd pc d : Nat) : Int) = (pc : Int) + d := by
  unfold pcAdd
  rw [Int.emod_eq_of_lt h0 h1, Int.toNat_of_nonneg h0]

theorem pcAdd_one (pc : Nat) (h : pc + 1 < 2 ^ 64) : pcAdd pc 1 = pc + 1 := by
  have := pcAdd_exact pc 1 (by omega) (by omega)
  omega

theorem shiftLoop_spec (f : Nat) : ∀ (n i : Nat) (stack : List IValue),
    f + i + 3 + n ≤ stack.length →
    ∃ stack1, shiftLoop f n i stack = some stack1 ∧ stack1.length = stack.length ∧
      (∀ p, p < f + i → stack1[p]? = stack[p]?) ∧
      (∀ j, j < n → stack1[f + i + j]? = stack[f + i + j + 3]?) := by
  intro n
  induction n with
  | zero =>
    intro i stack _
    exact ⟨stack, rfl, rfl, fun _ _ => rfl, fun j hj => absurd hj (Nat.not_lt_zero j)⟩
  | succ n ih =>
    intro i stack hlen
    have hsrc : f + i + 3 < stack.length := by omega
    obtain ⟨stack1, hrun, hl, hlow, hmov⟩ :=
      ih (i + 1) ((stack.set (f + i + 3) IValue.none).set (f + i) stack[f + i + 3])
        (by simp only [List.length_set]; omega)
    refine ⟨stack1, ?_, ?_, ?_, ?_⟩
    · simp only [shiftLoop, List.getElem?_eq_getElem hsrc]
      exact hrun
    · simpa only [List.length_set] using hl
    · intro p hp
      rw [hlow p (by omega), List.getElem?_set_ne (by omega), List.getElem?_set_ne (by omega)]
    · intro j hj
      cases j with
      | zero =>
        rw [Nat.add_zero, hlow (f + i) (by omega), List.getElem?_set_self (by
          simp only [List.length_set]; omega), List.getElem?_eq_getElem hsrc]
      | succ j =>
        have h := hmov j (by omega)
        have e1 : f + i + (j + 1) = f + (i + 1) + j := by omega
        have e2 : f + i + (j + 1) + 3 = f + (i + 1) + j + 3 := by omega
        rw [e1, h, List.getElem?_set_ne (by omega), List.getElem?_set_ne (by omega)]

theorem shiftLoop_frame (pre deps : List IValue) (a b c : IValue) :
    ∃ stack1, shiftLoop pre.length deps.length 0 (pre ++ [a, b, c] ++ deps) = some stack1 ∧
      drop stack1 3 = some (pre ++ deps) := by
  obtain ⟨stack1, hrun, hl, hlow, hmov⟩ :=
    shiftLoop_spec pre.length deps.length 0 (pre ++ [a, b, c] ++ deps) (by simp; omega)
  refine ⟨stack1, hrun, ?_⟩
  have hlen : stack1.length = pre.length + 3 + deps.length := by
    rw [hl]; simp; omega
  have h3 : (0 : Int) ≤ 3 ∧ (3 : Int) ≤ (stack1.length : Int) := by omega
  simp only [drop, h3, and_self, if_true]
  congr 1
  apply List.ext_getElem?
  intro p
  have e3 : (3 : Int).toNat = 3 := rfl
  rw [e3]
  by_cases hp : p < pre.length
  · rw [List.getElem?_take_of_lt (by omega), hlow p (by omega)]
    simp [List.getElem?_append_left, hp]
  · by_cases hq : p < pre.length + deps.length
    · obtain ⟨j, rfl⟩ : ∃ j, p = pre.length + j := ⟨p - pre.length, by omega⟩
      have h := hmov j (by omega)
      rw [Nat.add_zero] at h
      rw [List.getElem?_take_of_lt (by omega), h]
      rw [List.getElem?_append_right (by simp), List.getElem?_append_right (by simp)]
      congr 1
      simp
    · rw [List.getElem?_eq_none (by simp; omega), List.getElem?_eq_none (by simp; omega)]

theorem frame_length (pre deps : List IValue) (a b c : IValue) (N : Nat) (hN : 2 ≤ N)
    (hdeps : deps.length = N - 2) :
    (pre ++ [a, b, c] ++ deps).length = pre.length + (N + 1) := by
  simp only [List.length_append, List.length_cons, List.length_nil, hdeps]
  omega

theorem frame_get0 (pre deps : List IValue) (a b c : IValue) :
    (pre ++ [a, b, c] ++ deps)[pre.length]? = some a := by
  rw [List.append_assoc, List.getElem?_append_right (Nat.le_refl _)]
  simp

theorem frame_get1 (pre deps : List IValue) (a b c : IValue) :
    (pre ++ [a, b, c] ++ deps)[pre.length + 1]? = some b := by
  rw [List.append_assoc, List.getElem?_append_right (by omega)]
  simp

theorem frame_get2 (pre deps : List IValue) (a b c : IValue) :
    (pre ++ [a, b, c] ++ deps)[pre.length + 2]? = some c := by
  rw [List.append_assoc, List.getElem?_append_right (by omega)]
  simp

theorem frame_set (pre deps : List IValue) (a b c a1 c1 : IValue) :
    ((pre ++ [a, b, c] ++ deps).set (pre.length + 2) c1).set pre.length a1
      = pre ++ [a1, b, c1] ++ deps := by
  simp [List.append_assoc, List.set_append]

theorem exec_LOOP_exit (NDEBUG : Bool) (disp : Dispatcher) (code : Bytecode) (X : Int) (N : Nat) (s : State)
    (pre deps : List IValue) (i m : Int) (c : Bool)
    (hN : 2 ≤ N)
    (hstack : s.stack = pre ++ [IValue.int i, IValue.int m, IValue.bool c] ++ deps)
    (hdeps : deps.length = N - 2)
    (hexit : ¬ (i < m ∧ c = true)) :
    exec NDEBUG disp code ⟨OpCode.LOOP, X, N⟩ s
        = Outcome.next { stack := pre ++ deps, registers_ := s.registers_, pc := pcAdd s.pc X,
                         objects := s.objects, cout := s.cout } := by
  have hlen := frame_length pre deps (IValue.int i) (IValue.int m) (IValue.bool c) N hN hdeps
  obtain ⟨stack1, hshift, hdrop⟩ :=
    shiftLoop_frame pre deps (IValue.int i) (IValue.int m) (IValue.bool c)
  have hnot : ¬ (pre.length + (N + 1) < N + 1) := by omega
  have hfr : pre.length + (N + 1) - (N + 1) = pre.length := by omega
  simp only [exec, caseLOOP, hstack, hlen, hnot, if_false, hfr, frame_get0, frame_get1,
    frame_get2, IValue.toInt, IValue.toBool, hexit, ← hdeps, hshift, hdrop]

theorem wrapInt64_exact (z : Int) (h0 : -(2 : Int) ^ 63 ≤ z) (h1 : z < (2 : Int) ^ 63) :
    wrapInt64 z = z := by
  unfold wrapInt64
  rw [Int.emod_eq_of_lt (by omega) (by omega)]
  omega

theorem exec_LOOP_continue (NDEBUG : Bool) (disp : Dispatcher) (code : Bytecode) (X : Int) (N : Nat) (s : State)
    (pre deps : List IValue) (i m : Int)
    (hN : 2 ≤ N)
    (hstack : s.stack = pre ++ [IValue.int i, IValue.int m, IValue.bool true] ++ deps)
    (hdeps : deps.length = N - 2)
    (hi : -(2 : Int) ^ 63 ≤ i) (hm : m < (2 : Int) ^ 63)
    (hlt : i < m) :
    exec NDEBUG disp code ⟨OpCode.LOOP, X, N⟩ s
        = Outcome.next { stack := pre ++ [IValue.int (i + 1), IValue.int m, IValue.int i] ++ deps,
                         registers_ := s.registers_, pc := pcAdd s.pc 1,
                         objects := s.objects, cout := s.cout } := by
  have hlen := frame_length pre deps (IValue.int i) (IValue.int m) (IValue.bool true) N hN hdeps
  have hnot : ¬ (pre.length + (N + 1) < N + 1) := by omega
  have hfr : pre.length + (N + 1) - (N + 1) = pre.length := by omega
  have hw : wrapInt64 (i + 1) = i + 1 := wrapInt64_exact (i + 1) (by omega) (by omega)
  simp only [exec, caseLOOP, hstack, hlen, hnot, if_false, hfr, frame_get0, frame_get1,
    frame_get2, IValue.toInt, IValue.toBool, hlt, and_self, if_true, frame_set, hw]

theorem regSlot_eq_some {registers_ : List IValue} {r : Int} {k : Nat}
    (h : regSlot registers_ r = some k) :
    1 ≤ r ∧ r ≤ registers_.length ∧ k < registers_.length ∧ (k : Int) = registers_.length - r := by
  unfold regSlot at h
  split at h
  · injection h with h
    omega
  · cases h

theorem regSlot_of_valid (registers_ : List IValue) (r : Int) (h1 : 1 ≤ r)
    (h2 : r ≤ registers_.length) :
    regSlot registers_ r = some (registers_.length - r.toNat) := by
  simp [regSlot, h1, h2]

theorem regSlot_congr {regs regs1 : List IValue} (h : regs1.length = regs.length) (r : Int) :
    regSlot regs1 r = regSlot regs r := by
  simp [regSlot, h]

theorem regSet_length {regs regs1 : List IValue} {r : Int} {v : IValue}
    (h : regSet regs r v = some regs1) : regs1.length = regs.length := by
  unfold regSet at h
  split at h
  · injection h with h
    rw [← h, List.length_set]
  · cases h

theorem regGet_regSet_same {regs regs1 : List IValue} {r : Int} {v : IValue}
    (h : regSet regs r v = some regs1) : regGet regs1 r = some v := by
  have hl := regSet_length h
  unfold regSet at h
  split at h
  next k hk =>
    injection h with h
    have hb := regSlot_eq_some hk
    rw [regGet, regSlot_congr hl, hk, ← h]
    exact List.getElem?_set_self hb.2.2.1
  next => cases h

theorem regGet_regSet_ne {regs regs1 : List IValue} {r r1 : Int} {v : IValue}
    (h : regSet regs r v = some regs1) (hne : r1 ≠ r) : regGet regs1 r1 = regGet regs r1 := by
  have hl := regSet_length h
  unfold regSet at h
  split at h
  next k hk =>
    injection h with h
    have hb := regSlot_eq_some hk
    rw [regGet, regGet, regSlot_congr hl]
    cases hk1 : regSlot regs r1 with
    | none => rfl
    | some k1 =>
      have hb1 := regSlot_eq_some hk1
      simp only
      rw [← h, List.getElem?_set_ne (by omega)]
  next => cases h

theorem regSet_of_valid (regs : List IValue) (r : Int) (v : IValue) (h1 : 1 ≤ r)
    (h2 : r ≤ regs.length) : ∃ regs1, regSet regs r v = some regs1 := by
  simp [regSet, regSlot, h1, h2]

theorem storeLoop_frame (X : Int) : ∀ (N : Nat) (stack regs stack1 regs1 : List IValue),
    storeLoop X N stack regs = some (stack1, regs1) →
    regs1.length = regs.length ∧
      ∀ r : Int, r < X ∨ X + N ≤ r → regGet regs1 r = regGet regs r := by
  intro N
  induction N with
  | zero =>
    intro stack regs stack1 regs1 h
    simp only [storeLoop, Option.some.injEq, Prod.mk.injEq] at h
    rw [← h.2]
    exact ⟨rfl, fun _ _ => rfl⟩
  | succ n ih =>
    intro stack regs stack1 regs1 h
    simp only [storeLoop] at h
    split at h
    · cases h
    next v stack2 hpop =>
      split at h
      · cases h
      next regs2 hset =>
        obtain ⟨hl, hfr⟩ := ih stack2 regs2 stack1 regs1 h
        refine ⟨by rw [hl, regSet_length hset], ?_⟩
        intro r hr
        rw [hfr r (by push_cast at hr ⊢; omega)]
        exact regGet_regSet_ne hset (by push_cast at hr ⊢; omega)

theorem storeLoop_spec (X : Int) (pre : List IValue) : ∀ (vs regs : List IValue),
    (∀ j : Nat, j < vs.length → 1 ≤ X + j ∧ X + j ≤ regs.length) →
    ∃ regs1, storeLoop X vs.length (pre ++ vs) regs = some (pre, regs1) ∧
      ∀ j : Nat, j < vs.length → regGet regs1 (X + j) = vs[j]? := by
  intro vs
  induction vs using List.reverseRecOn with
  | nil =>
    intro regs _
    exact ⟨regs, by simp [storeLoop], fun j hj => absurd hj (by simp)⟩
  | append_singleton vs v ih =>
    intro regs hvalid
    have hlen : (vs ++ [v]).length = vs.length + 1 := by simp
    have hv := hvalid vs.length (by omega)
    obtain ⟨regs2, hset⟩ := regSet_of_valid regs (X + vs.length) v hv.1 hv.2
    have hl2 := regSet_length hset
    obtain ⟨regs1, hrun, hget⟩ := ih regs2 (fun j hj => by
      have := hvalid j (by omega)
      rw [hl2]; exact this)
    have hfr := (storeLoop_frame X vs.length (pre ++ vs) regs2 pre regs1 hrun).2
    have hidx : X + ((vs.length + 1 : Nat) : Int) - 1 = X + vs.length := by push_cast; omega
    refine ⟨regs1, ?_, ?_⟩
    · rw [hlen, ← List.append_assoc]
      simp only [storeLoop, pop_concat, hidx, hset]
      exact hrun
    · intro j hj
      by_cases hjl : j < vs.length
      · rw [hget j hjl, List.getElem?_append_left hjl]
      · have hje : j = vs.length := by omega
        subst hje
        rw [hfr _ (Or.inr (Int.le_refl _)), regGet_regSet_same hset]
        simp

theorem fmap_map {α : Type} (toElem : IValue → Option α) (inj : α → IValue)
    (hto : ∀ a, toElem (inj a) = some a) :
    ∀ vals : List α, fmap toElem (vals.map inj) = some vals := by
  intro vals
  induction vals with
  | nil => rfl
  | cons a rest ih => simp only [List.map_cons, fmap, hto, ih]

theorem fmap_eq_none {α : Type} (toElem : IValue → Option α) :
    ∀ elems : List IValue, (∃ v ∈ elems, toElem v = Option.none) →
      fmap toElem elems = Option.none := by
  intro elems
  induction elems with
  | nil => intro h; simp at h
  | cons v rest ih =>
    intro h
    cases hv : toElem v with
    | none => simp only [fmap, hv]
    | some a =>
      have hrest : ∃ w ∈ rest, toElem w = Option.none := by
        obtain ⟨w, hw, hwn⟩ := h
        rcases List.mem_cons.1 hw with rfl | hw
        · rw [hv] at hwn; cases hwn
        · exact ⟨w, hw, hwn⟩
      simp only [fmap, hv, ih hrest]

theorem eq_map_of_forall {α : Type} (inj : α → IValue) (P : IValue → Prop)
    (hP : ∀ v, P v → ∃ a, v = inj a) :
    ∀ elems : List IValue, (∀ v ∈ elems, P v) → ∃ vals : List α, elems = vals.map inj := by
  intro elems
  induction elems with
  | nil => intro _; exact ⟨[], rfl⟩
  | cons v rest ih =>
    intro h
    obtain ⟨a, ha⟩ := hP v (h v (List.mem_cons_self _ _))
    obtain ⟨vals, hvals⟩ := ih (fun w hw => h w (List.mem_cons_of_mem _ hw))
    exact ⟨a :: vals, by rw [ha, hvals, List.map_cons]⟩

theorem peekSlice_append (pre elems : List IValue) :
    peekSlice (pre ++ elems) (elems.length : Int) = some elems := by
  simp [peekSlice]

theorem drop_append (pre elems : List IValue) :
    drop (pre ++ elems) (elems.length : Int) = some pre := by
  simp [drop]

theorem drop_append_of_length (pre elems : List IValue) (n : Nat) (h : elems.length = n) :
    drop (pre ++ elems) (n : Int) = some pre := by
  subst h; exact drop_append pre elems

theorem tensorLoop_map : ∀ (hs : List Nat) (front : List IValue) (vals : List Nat),
    tensorLoop hs.length front.length (front ++ hs.map IValue.tensor) vals
      = TensorLoop.done (vals ++ hs) (front ++ List.replicate hs.length IValue.none) := by
  intro hs
  induction hs with
  | nil => intro front vals; simp [tensorLoop]
  | cons h rest ih =>
    intro front vals
    have hget : (front ++ (h :: rest).map IValue.tensor)[front.length]? = some (IValue.tensor h) := by
      rw [List.getElem?_append_right (Nat.le_refl _)]; simp
    have hset : (front ++ (h :: rest).map IValue.tensor).set front.length IValue.none
        = (front ++ [IValue.none]) ++ rest.map IValue.tensor := by
      simp [List.set_append]
    have hlen : front.length + 1 = (front ++ [IValue.none]).length := by simp
    simp only [List.length_cons, tensorLoop, hget, IValue.toTensor, hset]
    rw [hlen, ih]
    simp [List.replicate_succ]

theorem tensorLoop_mismatch : ∀ (elems front : List IValue) (vals : List Nat),
    (∃ v ∈ elems, v.toTensor = Option.none) →
    ∃ stack1, tensorLoop elems.length front.length (front ++ elems) vals
      = TensorLoop.mismatch stack1 := by
  intro elems
  induction elems with
  | nil => intro _ _ h; simp at h
  | cons v rest ih =>
    intro front vals h
    have hget : (front ++ v :: rest)[front.length]? = some v := by
      rw [List.getElem?_append_right (Nat.le_refl _)]; simp
    cases hv : v.toTensor with
    | none => exact ⟨front ++ v :: rest, by simp only [List.length_cons, tensorLoop, hget, hv]⟩
    | some a =>
      have hrest : ∃ w ∈ rest, w.toTensor = Option.none := by
        obtain ⟨w, hw, hwn⟩ := h
        rcases List.mem_cons.1 hw with rfl | hw
        · rw [hv] at hwn; cases hwn
        · exact ⟨w, hw, hwn⟩
      have hset : (front ++ v :: rest).set front.length IValue.none
          = (front ++ [IValue.none]) ++ rest := by
        simp [List.set_append]
      have hlen : front.length + 1 = (front ++ [IValue.none]).length := by simp
      obtain ⟨stack1, h1⟩ := ih (front ++ [IValue.none]) (vals ++ [a]) hrest
      refine ⟨stack1, ?_⟩
      simp only [List.length_cons, tensorLoop, hget, hv, hset]
      rw [hlen]
      exact h1

theorem genericLoop_append : ∀ (elems front vals : List IValue),
    genericLoop elems.length front.length (front ++ elems) vals
      = some (vals ++ elems, front ++ List.replicate elems.length IValue.none) := by
  intro elems
  induction elems with
  | nil => intro front vals; simp [genericLoop]
  | cons v rest ih =>
    intro front vals
    have hget : (front ++ v :: rest)[front.length]? = some v := by
      rw [List.getElem?_append_right (Nat.le_refl _)]; simp
    have hset : (front ++ v :: rest).set front.length IValue.none
        = (front ++ [IValue.none]) ++ rest := by
      simp [List.set_append]
    have hlen : front.length + 1 = (front ++ [IValue.none]).length := by simp
    simp only [List.length_cons, genericLoop, hget, hset]
    rw [hlen, ih]
    simp [List.replicate_succ]

theorem tag_int (v : IValue) (h : v.tag = Tag.Int) : ∃ a, v = IValue.int a := by
  cases v <;> simp [IValue.tag] at h
  exact ⟨_, rfl⟩

theorem tag_double (v : IValue) (h : v.tag = Tag.Double) : ∃ a, v = IValue.double a := by
  cases v <;> simp [IValue.tag] at h
  exact ⟨_, rfl⟩

theorem tag_bool (v : IValue) (h : v.tag = Tag.Bool) : ∃ a, v = IValue.bool a := by
  cases v <;> simp [IValue.tag] at h
  exact ⟨_, rfl⟩

theorem tag_tensor (v : IValue) (h : v.tag = Tag.Tensor) : ∃ a, v = IValue.tensor a := by
  cases v <;> simp [IValue.tag] at h
  exact ⟨_, rfl⟩

theorem toInt_none (v : IValue) (h : v.tag ≠ Tag.Int) : v.toInt = Option.none := by
  cases v <;> simp [IValue.tag] at h <;> rfl

theorem toDouble_none (v : IValue) (h : v.tag ≠ Tag.Double) : v.toDouble = Option.none := by
  cases v <;> simp [IValue.tag] at h <;> rfl

theorem toBool_none (v : IValue) (h : v.tag ≠ Tag.Bool) : v.toBool = Option.none := by
  cases v <;> simp [IValue.tag] at h <;> rfl

theorem toTensor_none (v : IValue) (h : v.tag ≠ Tag.Tensor) : v.toTensor = Option.none := by
  cases v <;> simp [IValue.tag] at h <;> rfl

theorem listConstructTyped_ok {α : Type} (expected : Tag) (toElem : IValue → Option α)
    (mk : List α → IValue) (inj : α → IValue) (hto : ∀ a, toElem (inj a) = some a)
    (op : OpCode) (N : Nat) (s : State) (pre : List IValue) (vals : List α)
    (hstack : s.stack = pre ++ vals.map inj) :
    listConstructTyped expected toElem mk ⟨op, ((vals.map inj).length : Int), N⟩ s
      = Outcome.next { stack := pre ++ [mk vals], registers_ := s.registers_,
                       pc := pcAdd s.pc 1, objects := s.objects, cout := s.cout } := by
  simp only [listConstructTyped, ListConstructFunc, hstack, peekSlice_append, drop_append,
    fmap_map toElem inj hto]

theorem listConstructTyped_mismatch {α : Type} (expected : Tag) (toElem : IValue → Option α)
    (mk : List α → IValue) (op : OpCode) (N : Nat) (s : State) (pre elems : List IValue)
    (hstack : s.stack = pre ++ elems) (hbad : ∃ v ∈ elems, toElem v = Option.none) :
    listConstructTyped expected toElem mk ⟨op, (elems.length : Int), N⟩ s
      = Outcome.fatal (Fault.typeMismatch expected) s := by
  simp only [listConstructTyped, ListConstructFunc, hstack, peekSlice_append,
    fmap_eq_none toElem elems hbad]

theorem caseLIST_CONSTRUCT_tensor (op : OpCode) (s : State) (pre : List IValue) (hs : List Nat)
    (hstack : s.stack = pre ++ hs.map IValue.tensor) :
    caseLIST_CONSTRUCT ⟨op, ((hs.map IValue.tensor).length : Int), 4⟩ s
      = Outcome.next { stack := pre ++ [IValue.tensorList hs], registers_ := s.registers_,
                       pc := pcAdd s.pc 1, objects := s.objects, cout := s.cout } := by
  have h0 : ¬ (((hs.map IValue.tensor).length : Int) < 0) := by omega
  have h1 : ¬ (((pre ++ hs.map IValue.tensor).length : Int) < ((hs.map IValue.tensor).length : Int)) := by
    simp only [List.length_append]; omega
  have h2 : (pre ++ hs.map IValue.tensor).length - (hs.map IValue.tensor).length = pre.length := by
    simp only [List.length_append]; omega
  have h3 := tensorLoop_map hs pre []
  have h4 := drop_append_of_length pre (List.replicate hs.length IValue.none)
    (hs.map IValue.tensor).length (by simp)
  simp only [List.length_map] at h0 h1 h2 h4
  simp only [caseLIST_CONSTRUCT, hstack, h0, h1, h2, if_false, Int.toNat_ofNat, List.length_map,
    h3, h4, List.nil_append]
  simp

theorem caseLIST_CONSTRUCT_tensor_mismatch (op : OpCode) (s : State) (pre elems : List IValue)
    (hstack : s.stack = pre ++ elems) (hbad : ∃ v ∈ elems, v.toTensor = Option.none) :
    ∃ s1, caseLIST_CONSTRUCT ⟨op, (elems.length : Int), 4⟩ s
      = Outcome.fatal (Fault.typeMismatch Tag.Tensor) s1 := by
  have h0 : ¬ ((elems.length : Int) < 0) := by omega
  have h1 : ¬ (((pre ++ elems).length : Int) < (elems.length : Int)) := by
    simp only [List.length_append]; omega
  have h2 : (pre ++ elems).length - elems.length = pre.length := by
    simp only [List.length_append]; omega
  obtain ⟨stack1, h3⟩ := tensorLoop_mismatch elems pre [] hbad
  refine ⟨{ s with stack := stack1 }, ?_⟩
  simp only [caseLIST_CONSTRUCT, hstack, h0, h1, h2, if_false, Int.toNat_ofNat, h3]
  simp

theorem caseLIST_CONSTRUCT_generic (op : OpCode) (N : Nat) (s : State) (pre elems : List IValue)
    (hN : requiredTag N = Option.none) (hstack : s.stack = pre ++ elems) :
    caseLIST_CONSTRUCT ⟨op, (elems.length : Int), N⟩ s
      = Outcome.next { stack := pre ++ [IValue.genericList elems], registers_ := s.registers_,
                       pc := pcAdd s.pc 1, objects := s.objects, cout := s.cout } := by
  have n1 : ¬ N = 1 := by intro h; simp [requiredTag, h] at hN
  have n2 : ¬ N = 2 := by intro h; simp [requiredTag, h] at hN
  have n3 : ¬ N = 3 := by intro h; simp [requiredTag, h] at hN
  have n4 : ¬ N = 4 := by intro h; simp [requiredTag, h] at hN
  have h0 : ¬ ((elems.length : Int) < 0) := by omega
  have h1 : ¬ (((pre ++ elems).length : Int) < (elems.length : Int)) := by
    simp only [List.length_append]; omega
  have h2 : (pre ++ elems).length - elems.length = pre.length := by
    simp only [List.length_append]; omega
  have h3 := genericLoop_append elems pre []
  have h4 := drop_append_of_length pre (List.replicate elems.length IValue.none)
    elems.length (by simp)
  simp only [caseLIST_CONSTRUCT, hstack, n1, n2, n3, n4, h0, h1, h2, if_false, Int.toNat_ofNat,
    h3, h4, List.nil_append]

theorem exec_LIST_CONSTRUCT_ok (NDEBUG : Bool) (disp : Dispatcher) (code : Bytecode) (N : Nat) (s : State)
    (pre elems : List IValue) (hstack : s.stack = pre ++ elems)
    (htag : ∀ t, requiredTag N = some t → ∀ v ∈ elems, v.tag = t) :
    ∃ l : IValue,
      exec NDEBUG disp code ⟨OpCode.LIST_CONSTRUCT, (elems.length : Int), N⟩ s
        = Outcome.next { stack := pre ++ [l], registers_ := s.registers_, pc := pcAdd s.pc 1,
                         objects := s.objects, cout := s.cout } ∧
      l.elements = some elems ∧ l.tag = listTag N := by
  by_cases h1 : N = 1
  · subst h1
    obtain ⟨vals, rfl⟩ := eq_map_of_forall IValue.int _ tag_int elems (htag Tag.Int rfl)
    exact ⟨IValue.intList vals, listConstructTyped_ok Tag.Int IValue.toInt IValue.intList
      IValue.int (fun _ => rfl) _ 1 s pre vals hstack, rfl, rfl⟩
  by_cases h2 : N = 2
  · subst h2
    obtain ⟨vals, rfl⟩ := eq_map_of_forall IValue.double _ tag_double elems (htag Tag.Double rfl)
    exact ⟨IValue.doubleList vals, listConstructTyped_ok Tag.Double IValue.toDouble
      IValue.doubleList IValue.double (fun _ => rfl) _ 2 s pre vals hstack, rfl, rfl⟩
  by_cases h3 : N = 3
  · subst h3
    obtain ⟨vals, rfl⟩ := eq_map_of_forall IValue.bool _ tag_bool elems (htag Tag.Bool rfl)
    exact ⟨IValue.boolList vals, listConstructTyped_ok Tag.Bool IValue.toBool
      IValue.boolList IValue.bool (fun _ => rfl) _ 3 s pre vals hstack, rfl, rfl⟩
  by_cases h4 : N = 4
  · subst h4
    obtain ⟨vals, rfl⟩ := eq_map_of_forall IValue.tensor _ tag_tensor elems (htag Tag.Tensor rfl)
    exact ⟨IValue.tensorList vals, caseLIST_CONSTRUCT_tensor _ s pre vals hstack, rfl, rfl⟩
  · have hN : requiredTag N = Option.none := by simp [requiredTag, h1, h2, h3, h4]
    exact ⟨IValue.genericList elems, caseLIST_CONSTRUCT_generic _ N s pre elems hN hstack, rfl,
      by simp [listTag, h1, h2, h3, h4, IValue.tag]⟩

theorem exec_LIST_CONSTRUCT_mismatch (NDEBUG : Bool) (disp : Dispatcher) (code : Bytecode) (N : Nat) (s : State)
    (pre elems : List IValue) (t : Tag) (hstack : s.stack = pre ++ elems)
    (hN : requiredTag N = some t) (hbad : ∃ v ∈ elems, v.tag ≠ t) :
    ∃ s1 : State,
      exec NDEBUG disp code ⟨OpCode.LIST_CONSTRUCT, (elems.length : Int), N⟩ s
        = Outcome.fatal (Fault.typeMismatch t) s1 := by
  obtain ⟨v, hv, hvt⟩ := hbad
  by_cases h1 : N = 1
  · subst h1
    have ht : t = Tag.Int := by simp [requiredTag] at hN; exact hN.symm
    subst ht
    exact ⟨s, listConstructTyped_mismatch Tag.Int IValue.toInt IValue.intList _ 1 s pre elems
      hstack ⟨v, hv, toInt_none v hvt⟩⟩
  by_cases h2 : N = 2
  · subst h2
    have ht : t = Tag.Double := by simp [requiredTag] at hN; exact hN.symm
    subst ht
    exact ⟨s, listConstructTyped_mismatch Tag.Double IValue.toDouble IValue.doubleList _ 2 s pre
      elems hstack ⟨v, hv, toDouble_none v hvt⟩⟩
  by_cases h3 : N = 3
  · subst h3
    have ht : t = Tag.Bool := by simp [requiredTag] at hN; exact hN.symm
    subst ht
    exact ⟨s, listConstructTyped_mismatch Tag.Bool IValue.toBool IValue.boolList _ 3 s pre elems
      hstack ⟨v, hv, toBool_none v hvt⟩⟩
  by_cases h4 : N = 4
  · subst h4
    have ht : t = Tag.Tensor := by simp [requiredTag] at hN; exact hN.symm
    subst ht
    exact caseLIST_CONSTRUCT_tensor_mismatch _ s pre elems hstack ⟨v, hv, toTensor_none v hvt⟩
  · simp [requiredTag, h1, h2, h3, h4] at hN

theorem caseOP_registers (NDEBUG : Bool) (disp : Dispatcher) (code : Bytecode) (inst : Instruction)
    (s s1 : State) (h : caseOP NDEBUG disp code inst s = Outcome.next s1) :
    s1.registers_ = s.registers_ := by
  unfold caseOP at h
  repeat' (first | split at h | dsimp only at h)
  all_goals (cases h; try rfl)

theorem caseLOAD_registers (inst : Instruction) (s s1 : State)
    (h : caseLOAD inst s = Outcome.next s1) : s1.registers_ = s.registers_ := by
  unfold caseLOAD at h
  repeat' (first | split at h | dsimp only at h)
  all_goals (cases h; try rfl)

theorem caseDROP_registers (s s1 : State)
    (h : caseDROP s = Outcome.next s1) : s1.registers_ = s.registers_ := by
  unfold caseDROP at h
  repeat' (first | split at h | dsimp only at h)
  all_goals (cases h; try rfl)

theorem caseLOADC_registers (code : Bytecode) (inst : Instruction) (s s1 : State)
    (h : caseLOADC code inst s = Outcome.next s1) : s1.registers_ = s.registers_ := by
  unfold caseLOADC at h
  repeat' (first | split at h | dsimp only at h)
  all_goals (cases h; try rfl)

theorem caseGET_ATTR_registers (inst : Instruction) (s s1 : State)
    (h : caseGET_ATTR inst s = Outcome.next s1) : s1.registers_ = s.registers_ := by
  unfold caseGET_ATTR at h
  repeat' (first | split at h | dsimp only at h)
  all_goals (cases h; try rfl)

theorem caseSET_ATTR_registers (inst : Instruction) (s s1 : State)
    (h : caseSET_ATTR inst s = Outcome.next s1) : s1.registers_ = s.registers_ := by
  unfold caseSET_ATTR at h
  repeat' (first | split at h | dsimp only at h)
  all_goals (cases h; try rfl)

theorem listConstructTyped_registers {α : Type} (expected : Tag) (toElem : IValue → Option α)
    (mk : List α → IValue) (inst : Instruction) (s s1 : State)
    (h : listConstructTyped expected toElem mk inst s = Outcome.next s1) :
    s1.registers_ = s.registers_ := by
  unfold listConstructTyped at h
  repeat' (first | split at h | dsimp only at h)
  all_goals (cases h; try rfl)

theorem caseLIST_CONSTRUCT_registers (inst : Instruction) (s s1 : State)
    (h : caseLIST_CONSTRUCT inst s = Outcome.next s1) : s1.registers_ = s.registers_ := by
  unfold caseLIST_CONSTRUCT at h
  repeat' split at h
  all_goals first
    | exact listConstructTyped_registers _ _ _ _ _ _ h
    | (cases h; try rfl)

theorem caseJF_registers (inst : Instruction) (s s1 : State)
    (h : caseJF inst s = Outcome.next s1) : s1.registers_ = s.registers_ := by
  unfold caseJF at h
  repeat' (first | split at h | dsimp only at h)
  all_goals (cases h; try rfl)

theorem caseJMP_registers (inst : Instruction) (s s1 : State)
    (h : caseJMP inst s = Outcome.next s1) : s1.registers_ = s.registers_ := by
  unfold caseJMP at h
  injection h with h
  rw [← h]

theorem caseLOOP_registers (inst : Instruction) (s s1 : State)
    (h : caseLOOP inst s = Outcome.next s1) : s1.registers_ = s.registers_ := by
  unfold caseLOOP at h
  repeat' (first | split at h | dsimp only at h)
  all_goals (cases h; try rfl)

theorem regSet_none_keeps {regs regs1 : List IValue} {X r : Int}
    (hset : regSet regs X IValue.none = some regs1)
    (hr : regGet regs r = some IValue.none) : regGet regs1 r = some IValue.none := by
  by_cases hrx : r = X
  · subst hrx
    exact regGet_regSet_same hset
  · rw [regGet_regSet_ne hset hrx, hr]

theorem exec_keeps_vacated (NDEBUG : Bool) (disp : Dispatcher) (code : Bytecode) (inst : Instruction)
    (s s1 : State) (r : Int) (h : exec NDEBUG disp code inst s = Outcome.next s1)
    (hr : regGet s.registers_ r = some IValue.none) (hns : ¬ storesInto inst r) :
    regGet s1.registers_ r = some IValue.none := by
  obtain ⟨op, X, N⟩ := inst
  cases op <;> simp only [exec] at h
  case OP => rw [caseOP_registers _ _ _ _ _ _ h]; exact hr
  case LOAD => rw [caseLOAD_registers _ _ _ h]; exact hr
  case MOVE =>
    unfold caseMOVE at h
    split at h
    next v regs1 hget hset =>
      cases h
      exact regSet_none_keeps hset hr
    next => cases h
  case STORE =>
    have hne : r ≠ X := fun e => hns (Or.inl ⟨rfl, e.symm⟩)
    unfold caseSTORE at h
    repeat' split at h
    all_goals first
      | (cases h; done)
      | skip
    next v stack1 hpop regs1 hset =>
      cases h
      show regGet regs1 r = some IValue.none
      rw [regGet_regSet_ne hset hne]; exact hr
  case STOREN =>
    have hout : r < X ∨ X + (N : Int) ≤ r := by
      by_contra hc
      exact hns (Or.inr ⟨rfl, by simp only []; omega, by simp only []; omega⟩)
    unfold caseSTOREN at h
    split at h
    · cases h
    next stack1 regs1 hrun =>
      cases h
      show regGet regs1 r = some IValue.none
      rw [(storeLoop_frame _ _ _ _ _ _ hrun).2 r hout]; exact hr
  case DROP => rw [caseDROP_registers _ _ h]; exact hr
  case DROPR =>
    unfold caseDROPR at h
    split at h
    · cases h
    next regs1 hset =>
      cases h
      exact regSet_none_keeps hset hr
  case LOADC => rw [caseLOADC_registers _ _ _ _ h]; exact hr
  case GET_ATTR => rw [caseGET_ATTR_registers _ _ _ h]; exact hr
  case SET_ATTR => rw [caseSET_ATTR_registers _ _ _ h]; exact hr
  case LIST_CONSTRUCT => rw [caseLIST_CONSTRUCT_registers _ _ _ h]; exact hr
  case JF => rw [caseJF_registers _ _ _ h]; exact hr
  case JMP => rw [caseJMP_registers _ _ _ h]; exact hr
  case LOOP => rw [caseLOOP_registers _ _ _ h]; exact hr
  case CALL => cases h
  case INTERFACE_CALL => cases h
  case RET => cases h
  case WAIT => cases h
  case GUARD => cases h
  case TAIL_CALL => cases h

theorem execTrace_keeps_vacated (NDEBUG : Bool) (disp : Dispatcher) (code : Bytecode) (r : Int) :
    ∀ (trace : List Instruction) (s s2 : State),
      (∀ inst ∈ trace, ¬ storesInto inst r) →
      regGet s.registers_ r = some IValue.none →
      execTrace NDEBUG disp code trace s = some s2 →
      regGet s2.registers_ r = some IValue.none := by
  intro trace
  induction trace with
  | nil =>
    intro s s2 _ hr h
    simp only [execTrace, Option.some.injEq] at h
    rw [← h]; exact hr
  | cons inst rest ih =>
    intro s s2 hns hr h
    simp only [execTrace] at h
    split at h
    next s1 hstep =>
      exact ih s1 s2 (fun i hi => hns i (List.mem_cons_of_mem _ hi))
        (exec_keeps_vacated NDEBUG disp code inst s s1 r hstep hr (hns inst (List.mem_cons_self _ _))) h
    next => cases h

theorem exec_LOAD (NDEBUG : Bool) (disp : Dispatcher) (code : Bytecode) (X : Int) (N : Nat) (s : State)
    (v : IValue) (hv : regGet s.registers_ X = some v) :
    exec NDEBUG disp code ⟨OpCode.LOAD, X, N⟩ s
      = Outcome.next { stack := s.stack ++ [v], registers_ := s.registers_, pc := pcAdd s.pc 1,
                       objects := s.objects, cout := s.cout } := by
  simp only [exec, caseLOAD, hv]

theorem exec_MOVE (NDEBUG : Bool) (disp : Dispatcher) (code : Bytecode) (X : Int) (N : Nat) (s : State)
    (v : IValue) (hv : regGet s.registers_ X = some v) :
    ∃ registers1 : List IValue,
      regSet s.registers_ X IValue.none = some registers1 ∧
      exec NDEBUG disp code ⟨OpCode.MOVE, X, N⟩ s
        = Outcome.next { stack := s.stack ++ [v], registers_ := registers1, pc := pcAdd s.pc 1,
                         objects := s.objects, cout := s.cout } := by
  have hvalid : 1 ≤ X ∧ X ≤ s.registers_.length := by
    unfold regGet at hv
    split at hv
    next k hk => exact ⟨(regSlot_eq_some hk).1, (regSlot_eq_some hk).2.1⟩
    next => cases hv
  obtain ⟨registers1, hset⟩ := regSet_of_valid s.registers_ X IValue.none hvalid.1 hvalid.2
  exact ⟨registers1, hset, by simp only [exec, caseMOVE, hv, hset]⟩

theorem runFor_of_not_next (NDEBUG : Bool) (disp : Dispatcher) (code : Bytecode) (inst : Instruction)
    (s : State) (o : Outcome) (fuel : Nat)
    (hfetch : code.instructions_[s.pc]? = some inst)
    (hexec : exec NDEBUG disp code inst s = o) (hnot : ∀ s1, o ≠ Outcome.next s1) :
    runFor NDEBUG disp code (fuel + 1) s = o := by
  cases o with
  | next s1 => exact absurd rfl (hnot s1)
  | ret s1 => simp only [runFor, step, hfetch, hexec]
  | fatal e s1 => simp only [runFor, step, hfetch, hexec]
  | undefined => simp only [runFor, step, hfetch, hexec]

theorem intList_of_elements (l : IValue) (vs : List Int)
    (hel : l.elements = some (vs.map IValue.int)) (ht : l.tag = Tag.IntList) :
    l = IValue.intList vs := by
  cases l <;> simp [IValue.tag] at ht
  simp only [IValue.elements, Option.some.injEq] at hel
  have hinj : Function.Injective IValue.int := fun a b h => by injection h
  rw [List.map_injective_iff.2 hinj hel]

theorem InterpreterState_length (bytecode : Bytecode) :
    (InterpreterState bytecode).length = bytecode.agg_size_ := by
  simp [InterpreterState]

theorem exec_STORE_frame (NDEBUG : Bool) (disp : Dispatcher) (code : Bytecode) (X : Int) (N : Nat)
    (s s1 : State) (h : exec NDEBUG disp code ⟨OpCode.STORE, X, N⟩ s = Outcome.next s1) :
    ∃ (k : Nat) (v : IValue), regSlot s.registers_ X = some k ∧ pop s.stack = some (v, s1.stack) ∧
      regSet s.registers_ X v = some s1.registers_ ∧
      s1.registers_ = s.registers_.set k v ∧ s1.pc = pcAdd s.pc 1 := by
  simp only [exec, caseSTORE] at h
  split at h
  · cases h
  next v stack1 hpop =>
    split at h
    · cases h
    next regs1 hset =>
      cases h
      have hset2 := hset
      unfold regSet at hset2
      split at hset2
      next k hk =>
        injection hset2 with hset2
        exact ⟨k, v, hk, hpop, hset, hset2.symm, rfl⟩
      next => cases hset2

theorem regSlot_invalid (registers_ : List IValue) (r : Int)
    (h : r < 1 ∨ (registers_.length : Int) < r) : regSlot registers_ r = Option.none := by
  unfold regSlot
  rw [if_neg]
  omega

theorem regGet_invalid (registers_ : List IValue) (r : Int)
    (h : r < 1 ∨ (registers_.length : Int) < r) : regGet registers_ r = Option.none := by
  simp only [regGet, regSlot_invalid registers_ r h]

theorem regSet_invalid (registers_ : List IValue) (r : Int) (v : IValue)
    (h : r < 1 ∨ (registers_.length : Int) < r) : regSet registers_ r v = Option.none := by
  simp only [regSet, regSlot_invalid registers_ r h]

theorem storeLoop_invalid (X : Int) : ∀ (N : Nat) (stack regs : List IValue),
    (∃ j : Nat, j < N ∧ (X + j < 1 ∨ (regs.length : Int) < X + j)) →
    storeLoop X N stack regs = Option.none := by
  intro N
  induction N with
  | zero => intro stack regs h; obtain ⟨j, hj, _⟩ := h; omega
  | succ n ih =>
    intro stack regs h
    obtain ⟨j, hj, hbad⟩ := h
    simp only [storeLoop]
    split
    · rfl
    next v stack1 hpop =>
      split
      · rfl
      next regs1 hset =>
        have hl := regSet_length hset
        by_cases hjn : j = n
        · subst hjn
          rw [regSet_invalid regs _ v (by push_cast; omega)] at hset
          cases hset
        · exact ih stack1 regs1 ⟨j, by omega, by rw [hl]; exact hbad⟩

theorem runFor_succ (NDEBUG : Bool) (disp : Dispatcher) (code : Bytecode) : ∀ (n : Nat) (s0 s : State),
    runFor NDEBUG disp code n s0 = Outcome.next s →
    runFor NDEBUG disp code (n + 1) s0 = step NDEBUG disp code s := by
  intro n
  induction n with
  | zero =>
    intro s0 s h
    simp only [runFor] at h
    injection h with h
    subst h
    cases hs : step NDEBUG disp code s0 <;> simp only [runFor, hs]
  | succ n ih =>
    intro s0 s h
    cases hs : step NDEBUG disp code s0 with
    | next s1 =>
      have h1 : runFor NDEBUG disp code (n + 1) s0 = runFor NDEBUG disp code n s1 := by
        simp only [runFor, hs]
      rw [h1] at h
      have h2 : runFor NDEBUG disp code (n + 1 + 1) s0 = runFor NDEBUG disp code (n + 1) s1 := by
        rw [runFor]; simp only [hs]
      rw [h2]
      exact ih s1 s h
    | ret s1 => simp only [runFor, hs] at h; cases h
    | fatal e s1 => simp only [runFor, hs] at h; cases h
    | undefined => simp only [runFor, hs] at h; cases h

theorem step_outside (NDEBUG : Bool) (disp : Dispatcher) (code : Bytecode) (s : State)
    (h : code.instructions_.length ≤ s.pc) : step NDEBUG disp code s = Outcome.undefined := by
  simp only [step, List.getElem?_eq_none h]

theorem caseOP_pc (NDEBUG : Bool) (disp : Dispatcher) (code : Bytecode) (inst : Instruction)
    (s s1 : State) (h : caseOP NDEBUG disp code inst s = Outcome.next s1) :
    s1.pc = pcAdd s.pc 1 := by
  unfold caseOP at h
  repeat' (first | split at h | dsimp only at h)
  all_goals (cases h; try rfl)

theorem caseLOAD_pc (inst : Instruction) (s s1 : State)
    (h : caseLOAD inst s = Outcome.next s1) : s1.pc = pcAdd s.pc 1 := by
  unfold caseLOAD at h
  repeat' (first | split at h | dsimp only at h)
  all_goals (cases h; try rfl)

theorem caseMOVE_pc (inst : Instruction) (s s1 : State)
    (h : caseMOVE inst s = Outcome.next s1) : s1.pc = pcAdd s.pc 1 := by
  unfold caseMOVE at h
  repeat' (first | split at h | dsimp only at h)
  all_goals (cases h; try rfl)

theorem caseSTORE_pc (inst : Instruction) (s s1 : State)
    (h : caseSTORE inst s = Outcome.next s1) : s1.pc = pcAdd s.pc 1 := by
  unfold caseSTORE at h
  repeat' (first | split at h | dsimp only at h)
  all_goals (cases h; try rfl)

theorem caseSTOREN_pc (inst : Instruction) (s s1 : State)
    (h : caseSTOREN inst s = Outcome.next s1) : s1.pc = pcAdd s.pc 1 := by
  unfold caseSTOREN at h
  repeat' (first | split at h | dsimp only at h)
  all_goals (cases h; try rfl)

theorem caseDROP_pc (s s1 : State)
    (h : caseDROP s = Outcome.next s1) : s1.pc = pcAdd s.pc 1 := by
  unfold caseDROP at h
  repeat' (first | split at h | dsimp only at h)
  all_goals (cases h; try rfl)

theorem caseDROPR_pc (inst : Instruction) (s s1 : State)
    (h : caseDROPR inst s = Outcome.next s1) : s1.pc = pcAdd s.pc 1 := by
  unfold caseDROPR at h
  repeat' (first | split at h | dsimp only at h)
  all_goals (cases h; try rfl)

theorem caseLOADC_pc (code : Bytecode) (inst : Instruction) (s s1 : State)
    (h : caseLOADC code inst s = Outcome.next s1) : s1.pc = pcAdd s.pc 1 := by
  unfold caseLOADC at h
  repeat' (first | split at h | dsimp only at h)
  all_goals (cases h; try rfl)

theorem caseGET_ATTR_pc (inst : Instruction) (s s1 : State)
    (h : caseGET_ATTR inst s = Outcome.next s1) : s1.pc = pcAdd s.pc 1 := by
  unfold caseGET_ATTR at h
  repeat' (first | split at h | dsimp only at h)
  all_goals (cases h; try rfl)

theorem caseSET_ATTR_pc (inst : Instruction) (s s1 : State)
    (h : caseSET_ATTR inst s = Outcome.next s1) : s1.pc = pcAdd s.pc 1 := by
  unfold caseSET_ATTR at h
  repeat' (first | split at h | dsimp only at h)
  all_goals (cases h; try rfl)

theorem listConstructTyped_pc {α : Type} (expected : Tag) (toElem : IValue → Option α)
    (mk : List α → IValue) (inst : Instruction) (s s1 : State)
    (h : listConstructTyped expected toElem mk inst s = Outcome.next s1) :
    s1.pc = pcAdd s.pc 1 := by
  unfold listConstructTyped at h
  repeat' (first | split at h | dsimp only at h)
  all_goals (cases h; try rfl)

theorem caseLIST_CONSTRUCT_pc (inst : Instruction) (s s1 : State)
    (h : caseLIST_CONSTRUCT inst s = Outcome.next s1) : s1.pc = pcAdd s.pc 1 := by
  unfold caseLIST_CONSTRUCT at h
  repeat' split at h
  all_goals first
    | exact listConstructTyped_pc _ _ _ _ _ _ h
    | (cases h; try rfl)

theorem toInt_eq_some (v : IValue) (t : Int) (h : v.toInt = some t) : v = IValue.int t := by
  cases v <;> cases h
  rfl

theorem toBool_eq_some (v : IValue) (b : Bool) (h : v.toBool = some b) : v = IValue.bool b := by
  cases v <;> cases h
  rfl

theorem caseJF_pc (inst : Instruction) (s s1 : State)
    (h : caseJF inst s = Outcome.next s1) :
    ∃ b : Bool, s.stack.getLast? = some (IValue.bool b) ∧
      s1.pc = pcAdd s.pc (if b = true then 1 else inst.X) := by
  unfold caseJF at h
  split at h
  · cases h
  next top stack1 hpop =>
    split at h
    · cases h
    next b hb =>
      cases h
      refine ⟨b, ?_, rfl⟩
      unfold pop at hpop
      split at hpop
      next v hv =>
        injection hpop with hpop
        injection hpop with h1 h2
        subst h1
        rw [hv, toBool_eq_some v b hb]
      next => cases hpop

theorem caseLOOP_pc (inst : Instruction) (s s1 : State)
    (h : caseLOOP inst s = Outcome.next s1) :
    ∃ (t m : Int) (c : Bool),
      s.stack[s.stack.length - (inst.N + 1)]? = some (IValue.int t) ∧
      s.stack[s.stack.length - (inst.N + 1) + 1]? = some (IValue.int m) ∧
      s.stack[s.stack.length - (inst.N + 1) + 2]? = some (IValue.bool c) ∧
      s1.pc = pcAdd s.pc (if t < m ∧ c = true then 1 else inst.X) := by
  unfold caseLOOP at h
  split at h
  · cases h
  dsimp only at h
  split at h
  · cases h
  next v0 h0 =>
  split at h
  · cases h
  next t ht =>
  split at h
  · cases h
  next v1 h1 =>
  split at h
  · cases h
  next m hm =>
  split at h
  · cases h
  next v2 h2 =>
  split at h
  · cases h
  next c hc =>
  rw [toInt_eq_some v0 t ht] at h0
  rw [toInt_eq_some v1 m hm] at h1
  rw [toBool_eq_some v2 c hc] at h2
  refine ⟨t, m, c, h0, h1, h2, ?_⟩
  split at h
  next hcont =>
    cases h
    simp only [hcont, and_self, if_true]
  next hexit =>
    repeat' split at h
    all_goals first
      | (cases h; done)
      | (cases h; simp only [hexit, if_false])

theorem exec_pc_cases (NDEBUG : Bool) (disp : Dispatcher) (code : Bytecode) (inst : Instruction) (s s1 : State)
    (h : exec NDEBUG disp code inst s = Outcome.next s1) :
    (inst.op ∈ [OpCode.OP, OpCode.LOAD, OpCode.MOVE, OpCode.STORE, OpCode.STOREN, OpCode.DROP,
        OpCode.DROPR, OpCode.LOADC, OpCode.GET_ATTR, OpCode.SET_ATTR, OpCode.LIST_CONSTRUCT] ∧
      s1.pc = pcAdd s.pc 1) ∨
    (inst.op = OpCode.JMP ∧ s1.pc = pcAdd s.pc inst.X) ∨
    (inst.op = OpCode.JF ∧ ∃ b : Bool, s.stack.getLast? = some (IValue.bool b) ∧
      s1.pc = pcAdd s.pc (if b = true then 1 else inst.X)) ∨
    (inst.op = OpCode.LOOP ∧ ∃ (t m : Int) (c : Bool),
      s.stack[s.stack.length - (inst.N + 1)]? = some (IValue.int t) ∧
      s.stack[s.stack.length - (inst.N + 1) + 1]? = some (IValue.int m) ∧
      s.stack[s.stack.length - (inst.N + 1) + 2]? = some (IValue.bool c) ∧
      s1.pc = pcAdd s.pc (if t < m ∧ c = true then 1 else inst.X)) := by
  obtain ⟨op, X, N⟩ := inst
  cases op <;> simp only [exec] at h
  case OP => exact Or.inl ⟨by simp, caseOP_pc _ _ _ _ _ _ h⟩
  case LOAD => exact Or.inl ⟨by simp, caseLOAD_pc _ _ _ h⟩
  case MOVE => exact Or.inl ⟨by simp, caseMOVE_pc _ _ _ h⟩
  case STORE => exact Or.inl ⟨by simp, caseSTORE_pc _ _ _ h⟩
  case STOREN => exact Or.inl ⟨by simp, caseSTOREN_pc _ _ _ h⟩
  case DROP => exact Or.inl ⟨by simp, caseDROP_pc _ _ h⟩
  case DROPR => exact Or.inl ⟨by simp, caseDROPR_pc _ _ _ h⟩
  case LOADC => exact Or.inl ⟨by simp, caseLOADC_pc _ _ _ _ h⟩
  case GET_ATTR => exact Or.inl ⟨by simp, caseGET_ATTR_pc _ _ _ h⟩
  case SET_ATTR => exact Or.inl ⟨by simp, caseSET_ATTR_pc _ _ _ h⟩
  case LIST_CONSTRUCT => exact Or.inl ⟨by simp, caseLIST_CONSTRUCT_pc _ _ _ h⟩
  case JF => exact Or.inr (Or.inr (Or.inl ⟨rfl, caseJF_pc _ _ _ h⟩))
  case JMP =>
    unfold caseJMP at h
    cases h
    exact Or.inr (Or.inl ⟨rfl, rfl⟩)
  case LOOP => exact Or.inr (Or.inr (Or.inr ⟨rfl, caseLOOP_pc _ _ _ h⟩))
  case CALL => cases h
  case INTERFACE_CALL => cases h
  case RET => cases h
  case WAIT => cases h
  case GUARD => cases h
  case TAIL_CALL => cases h

theorem frame_set_cond (pre deps : List IValue) (a b c c1 : IValue) :
    (pre ++ [a, b, c] ++ deps).set (pre.length + 2) c1 = pre ++ [a, b, c1] ++ deps := by
  simp [List.append_assoc, List.set_append]

theorem loopCycles_state (NDEBUG : Bool) (disp : Dispatcher) (code : Bytecode) (X : Int) (N : Nat)
    (pre deps : List IValue) (i m : Int) (registers_ : List IValue) (pcLoop : Nat)
    (objects : List (List IValue)) (cout : List Printed)
    (hN : 2 ≤ N) (hdeps : deps.length = N - 2)
    (hi : -(2 : Int) ^ 63 ≤ i) (hm : m < (2 : Int) ^ 63) :
    ∀ j : Nat, (j ≠ 0 → i + j ≤ m) →
      loopCycles NDEBUG disp code ⟨OpCode.LOOP, X, N⟩ pre.length pcLoop j
          (State.mk (pre ++ [IValue.int i, IValue.int m, IValue.bool true] ++ deps)
            registers_ pcLoop objects cout)
        = some (State.mk (pre ++ [IValue.int (i + j), IValue.int m, IValue.bool true] ++ deps)
            registers_ pcLoop objects cout) := by
  intro j
  induction j with
  | zero =>
    intro _
    simp only [loopCycles, Nat.cast_zero, Int.add_zero]
  | succ j ih =>
    intro hj0
    have hj := hj0 (Nat.succ_ne_zero j)
    have hstep := exec_LOOP_continue NDEBUG disp code X N
      (State.mk (pre ++ [IValue.int (i + j), IValue.int m, IValue.bool true] ++ deps)
        registers_ pcLoop objects cout) pre deps (i + j) m hN rfl hdeps (by omega) hm
      (by push_cast at hj; omega)
    simp only [loopCycles, ih (fun _ => by push_cast at hj ⊢; omega), loopCycle, hstep, bodyKeepsGoing,
      frame_set_cond]
    have e : i + (j : Int) + 1 = i + ((j + 1 : Nat) : Int) := by push_cast; omega
    rw [e]

theorem pcAdd_iterate (N : Nat) : ∀ pc : Nat, pc + N < 2 ^ 64 →
    (fun p => pcAdd p 1)^[N] pc = pc + N := by
  induction N with
  | zero => intro pc _; rfl
  | succ n ih =>
    intro pc h
    rw [Function.iterate_succ_apply, pcAdd_one pc (by omega), ih (pc + 1) (by omega)]
    omega

theorem storeLoop_index (X : Int) (n : Nat) : X + ((n + 1 : Nat) : Int) - 1 = X + (n : Int) := by
  push_cast
  omega

theorem storeLoop_eq_trace (NDEBUG : Bool) (disp : Dispatcher) (code : Bytecode) (X : Int) :
    ∀ (N : Nat) (s : State),
      execTrace NDEBUG disp code (storeSeq X N) s
        = (storeLoop X N s.stack s.registers_).map (fun r =>
            { stack := r.1, registers_ := r.2, pc := (fun p => pcAdd p 1)^[N] s.pc,
              objects := s.objects, cout := s.cout }) := by
  intro N
  induction N with
  | zero => intro s; rfl
  | succ n ih =>
    intro s
    simp only [storeSeq, execTrace, exec, caseSTORE, storeLoop, storeLoop_index]
    cases hpop : pop s.stack with
    | none => rfl
    | some r =>
      obtain ⟨v, stack1⟩ := r
      simp only
      cases hset : regSet s.registers_ (X + (n : Int)) v with
      | none => rfl
      | some regs1 =>
        simp only
        rw [ih]
        rfl

theorem caseOP_fatal_registers (NDEBUG : Bool) (disp : Dispatcher) (code : Bytecode) (inst : Instruction) (s s1 : State) (e : Fault)
    (h : caseOP NDEBUG disp code inst s = Outcome.fatal e s1) : s1.registers_ = s.registers_ := by
  unfold caseOP at h
  repeat' (first | split at h | dsimp only at h)
  all_goals (cases h; try rfl)

theorem caseLOAD_fatal_registers (inst : Instruction) (s s1 : State) (e : Fault)
    (h : caseLOAD inst s = Outcome.fatal e s1) : s1.registers_ = s.registers_ := by
  unfold caseLOAD at h
  repeat' (first | split at h | dsimp only at h)
  all_goals (cases h; try rfl)

theorem caseMOVE_fatal_registers (inst : Instruction) (s s1 : State) (e : Fault)
    (h : caseMOVE inst s = Outcome.fatal e s1) : s1.registers_ = s.registers_ := by
  unfold caseMOVE at h
  repeat' (first | split at h | dsimp only at h)
  all_goals (cases h; try rfl)

theorem caseSTORE_fatal_registers (inst : Instruction) (s s1 : State) (e : Fault)
    (h : caseSTORE inst s = Outcome.fatal e s1) : s1.registers_ = s.registers_ := by
  unfold caseSTORE at h
  repeat' (first | split at h | dsimp only at h)
  all_goals (cases h; try rfl)

theorem caseSTOREN_fatal_registers (inst : Instruction) (s s1 : State) (e : Fault)
    (h : caseSTOREN inst s = Outcome.fatal e s1) : s1.registers_ = s.registers_ := by
  unfold caseSTOREN at h
  repeat' (first | split at h | dsimp only at h)
  all_goals (cases h; try rfl)

theorem caseDROP_fatal_registers  (s s1 : State) (e : Fault)
    (h : caseDROP s = Outcome.fatal e s1) : s1.registers_ = s.registers_ := by
  unfold caseDROP at h
  repeat' (first | split at h | dsimp only at h)
  all_goals (cases h; try rfl)

theorem caseDROPR_fatal_registers (inst : Instruction) (s s1 : State) (e : Fault)
    (h : caseDROPR inst s = Outcome.fatal e s1) : s1.registers_ = s.registers_ := by
  unfold caseDROPR at h
  repeat' (first | split at h | dsimp only at h)
  all_goals (cases h; try rfl)

theorem caseLOADC_fatal_registers (code : Bytecode) (inst : Instruction) (s s1 : State) (e : Fault)
    (h : caseLOADC code inst s = Outcome.fatal e s1) : s1.registers_ = s.registers_ := by
  unfold caseLOADC at h
  repeat' (first | split at h | dsimp only at h)
  all_goals (cases h; try rfl)

theorem caseGET_ATTR_fatal_registers (inst : Instruction) (s s1 : State) (e : Fault)
    (h : caseGET_ATTR inst s = Outcome.fatal e s1) : s1.registers_ = s.registers_ := by
  unfold caseGET_ATTR at h
  repeat' (first | split at h | dsimp only at h)
  all_goals (cases h; try rfl)

theorem caseSET_ATTR_fatal_registers (inst : Instruction) (s s1 : State) (e : Fault)
    (h : caseSET_ATTR inst s = Outcome.fatal e s1) : s1.registers_ = s.registers_ := by
  unfold caseSET_ATTR at h
  repeat' (first | split at h | dsimp only at h)
  all_goals (cases h; try rfl)

theorem caseJF_fatal_registers (inst : Instruction) (s s1 : State) (e : Fault)
    (h : caseJF inst s = Outcome.fatal e s1) : s1.registers_ = s.registers_ := by
  unfold caseJF at h
  repeat' (first | split at h | dsimp only at h)
  all_goals (cases h; try rfl)

theorem caseJMP_fatal_registers (inst : Instruction) (s s1 : State) (e : Fault)
    (h : caseJMP inst s = Outcome.fatal e s1) : s1.registers_ = s.registers_ := by
  unfold caseJMP at h
  cases h

theorem caseLOOP_fatal_registers (inst : Instruction) (s s1 : State) (e : Fault)
    (h : caseLOOP inst s = Outcome.fatal e s1) : s1.registers_ = s.registers_ := by
  unfold caseLOOP at h
  repeat' (first | split at h | dsimp only at h)
  all_goals (cases h; try rfl)

theorem listConstructTyped_fatal_registers {α : Type} (expected : Tag)
    (toElem : IValue → Option α) (mk : List α → IValue) (inst : Instruction) (s s1 : State)
    (e : Fault) (h : listConstructTyped expected toElem mk inst s = Outcome.fatal e s1) :
    s1.registers_ = s.registers_ := by
  unfold listConstructTyped at h
  repeat' (first | split at h | dsimp only at h)
  all_goals (cases h; try rfl)

theorem caseLIST_CONSTRUCT_fatal_registers (inst : Instruction) (s s1 : State) (e : Fault)
    (h : caseLIST_CONSTRUCT inst s = Outcome.fatal e s1) : s1.registers_ = s.registers_ := by
  unfold caseLIST_CONSTRUCT at h
  repeat' split at h
  all_goals first
    | exact listConstructTyped_fatal_registers _ _ _ _ _ _ _ h
    | (cases h; try rfl)

theorem exec_fatal_registers (NDEBUG : Bool) (disp : Dispatcher) (code : Bytecode) (inst : Instruction)
    (s s1 : State) (e : Fault) (h : exec NDEBUG disp code inst s = Outcome.fatal e s1) :
    s1.registers_ = s.registers_ := by
  obtain ⟨op, X, N⟩ := inst
  cases op <;> simp only [exec] at h
  case OP => exact caseOP_fatal_registers _ _ _ _ _ _ _ h
  case LOAD => exact caseLOAD_fatal_registers _ _ _ _ h
  case MOVE => exact caseMOVE_fatal_registers _ _ _ _ h
  case STORE => exact caseSTORE_fatal_registers _ _ _ _ h
  case STOREN => exact caseSTOREN_fatal_registers _ _ _ _ h
  case DROP => exact caseDROP_fatal_registers _ _ _ h
  case DROPR => exact caseDROPR_fatal_registers _ _ _ _ h
  case LOADC => exact caseLOADC_fatal_registers _ _ _ _ _ h
  case GET_ATTR => exact caseGET_ATTR_fatal_registers _ _ _ _ h
  case SET_ATTR => exact caseSET_ATTR_fatal_registers _ _ _ _ h
  case LIST_CONSTRUCT => exact caseLIST_CONSTRUCT_fatal_registers _ _ _ _ h
  case JF => exact caseJF_fatal_registers _ _ _ _ h
  case JMP => exact caseJMP_fatal_registers _ _ _ _ h
  case LOOP => exact caseLOOP_fatal_registers _ _ _ _ h
  case CALL => cases h; rfl
  case INTERFACE_CALL => cases h; rfl
  case RET => cases h
  case WAIT => cases h; rfl
  case GUARD => cases h; rfl
  case TAIL_CALL => cases h; rfl

theorem exec_ret_state (NDEBUG : Bool) (disp : Dispatcher) (code : Bytecode) (inst : Instruction)
    (s s1 : State) (h : exec NDEBUG disp code inst s = Outcome.ret s1) : s1 = s := by
  obtain ⟨op, X, N⟩ := inst
  cases op <;> simp only [exec] at h
  case OP => unfold caseOP at h; repeat' split at h
             all_goals cases h
  case LOAD => unfold caseLOAD at h; repeat' split at h
               all_goals cases h
  case MOVE => unfold caseMOVE at h; repeat' split at h
               all_goals cases h
  case STORE => unfold caseSTORE at h; repeat' split at h
                all_goals cases h
  case STOREN => unfold caseSTOREN at h; repeat' split at h
                 all_goals cases h
  case DROP => unfold caseDROP at h; repeat' split at h
               all_goals cases h
  case DROPR => unfold caseDROPR at h; repeat' split at h
                all_goals cases h
  case LOADC => unfold caseLOADC at h; repeat' split at h
                all_goals cases h
  case GET_ATTR => unfold caseGET_ATTR at h; repeat' split at h
                   all_goals cases h
  case SET_ATTR => unfold caseSET_ATTR at h; repeat' split at h
                   all_goals cases h
  case LIST_CONSTRUCT =>
    unfold caseLIST_CONSTRUCT listConstructTyped at h
    repeat' split at h
    all_goals cases h
  case JF => unfold caseJF at h; repeat' split at h
             all_goals cases h
  case JMP => unfold caseJMP at h; cases h
  case LOOP =>
    unfold caseLOOP at h
    repeat' (first | split at h | dsimp only at h)
    all_goals cases h
  case CALL => cases h
  case INTERFACE_CALL => cases h
  case RET => cases h; rfl
  case WAIT => cases h
  case GUARD => cases h
  case TAIL_CALL => cases h

theorem exec_next_registers_same (NDEBUG : Bool) (disp : Dispatcher) (code : Bytecode) (inst : Instruction)
    (s s1 : State) (h : exec NDEBUG disp code inst s = Outcome.next s1)
    (hop : inst.op ∉ [OpCode.MOVE, OpCode.STORE, OpCode.STOREN, OpCode.DROPR]) :
    s1.registers_ = s.registers_ := by
  obtain ⟨op, X, N⟩ := inst
  cases op <;> simp only [exec] at h
  case OP => exact caseOP_registers _ _ _ _ _ _ h
  case LOAD => exact caseLOAD_registers _ _ _ h
  case MOVE => exact absurd (by simp) hop
  case STORE => exact absurd (by simp) hop
  case STOREN => exact absurd (by simp) hop
  case DROP => exact caseDROP_registers _ _ h
  case DROPR => exact absurd (by simp) hop
  case LOADC => exact caseLOADC_registers _ _ _ _ h
  case GET_ATTR => exact caseGET_ATTR_registers _ _ _ h
  case SET_ATTR => exact caseSET_ATTR_registers _ _ _ h
  case LIST_CONSTRUCT => exact caseLIST_CONSTRUCT_registers _ _ _ h
  case JF => exact caseJF_registers _ _ _ h
  case JMP => exact caseJMP_registers _ _ _ h
  case LOOP => exact caseLOOP_registers _ _ _ h
  case CALL => cases h
  case INTERFACE_CALL => cases h
  case RET => cases h
  case WAIT => cases h
  case GUARD => cases h
  case TAIL_CALL => cases h

theorem regSet_eq_set {regs regs1 : List IValue} {r : Int} {v : IValue}
    (h : regSet regs r v = some regs1) :
    ∃ k : Nat, regSlot regs r = some k ∧ regs1 = regs.set k v := by
  unfold regSet at h
  split at h
  next k hk =>
    injection h with h
    exact ⟨k, hk, h.symm⟩
  next => cases h

theorem exec_DROPR_frame (NDEBUG : Bool) (disp : Dispatcher) (code : Bytecode) (X : Int) (N : Nat)
    (s s1 : State) (h : exec NDEBUG disp code ⟨OpCode.DROPR, X, N⟩ s = Outcome.next s1) :
    regSet s.registers_ X IValue.none = some s1.registers_ := by
  simp only [exec, caseDROPR] at h
  split at h
  · cases h
  next regs1 hset =>
    cases h
    exact hset

theorem exec_MOVE_frame (NDEBUG : Bool) (disp : Dispatcher) (code : Bytecode) (X : Int) (N : Nat)
    (s s1 : State) (h : exec NDEBUG disp code ⟨OpCode.MOVE, X, N⟩ s = Outcome.next s1) :
    regSet s.registers_ X IValue.none = some s1.registers_ := by
  simp only [exec, caseMOVE] at h
  split at h
  next v regs1 hget hset =>
    cases h
    exact hset
  next => cases h

theorem exec_STOREN_frame (NDEBUG : Bool) (disp : Dispatcher) (code : Bytecode) (X : Int) (N : Nat)
    (s s1 : State) (h : exec NDEBUG disp code ⟨OpCode.STOREN, X, N⟩ s = Outcome.next s1) :
    storeLoop X N s.stack s.registers_ = some (s1.stack, s1.registers_) := by
  simp only [exec, caseSTOREN] at h
  split at h
  · cases h
  next stack1 regs1 hrun =>
    cases h
    exact hrun

theorem exec_next_length (NDEBUG : Bool) (disp : Dispatcher) (code : Bytecode) (inst : Instruction)
    (s s1 : State) (h : exec NDEBUG disp code inst s = Outcome.next s1) :
    s1.registers_.length = s.registers_.length := by
  by_cases hop : inst.op ∉ [OpCode.MOVE, OpCode.STORE, OpCode.STOREN, OpCode.DROPR]
  · rw [exec_next_registers_same NDEBUG disp code inst s s1 h hop]
  · obtain ⟨op, X, N⟩ := inst
    simp only [List.mem_cons, List.mem_singleton, List.not_mem_nil, or_false, not_or,
      not_and, not_not] at hop
    cases op with
    | MOVE => exact regSet_length (exec_MOVE_frame NDEBUG disp code X N s s1 h)
    | STORE =>
      obtain ⟨_, _, _, _, hset, _, _⟩ := exec_STORE_frame NDEBUG disp code X N s s1 h
      exact regSet_length hset
    | STOREN =>
      exact (storeLoop_frame X N _ _ _ _ (exec_STOREN_frame NDEBUG disp code X N s s1 h)).1
    | DROPR => exact regSet_length (exec_DROPR_frame NDEBUG disp code X N s s1 h)
    | _ => simp at hop

theorem stateOf_cases (o : Outcome) (s1 : State) (h : o.stateOf = some s1) :
    o = Outcome.next s1 ∨ o = Outcome.ret s1 ∨ ∃ e, o = Outcome.fatal e s1 := by
  cases o with
  | next s2 => simp only [Outcome.stateOf, Option.some.injEq] at h; exact Or.inl (by rw [h])
  | ret s2 => simp only [Outcome.stateOf, Option.some.injEq] at h; exact Or.inr (Or.inl (by rw [h]))
  | fatal e s2 =>
    simp only [Outcome.stateOf, Option.some.injEq] at h
    exact Or.inr (Or.inr ⟨e, by rw [h]⟩)
  | undefined => cases h

theorem InterpreterState_empty (bytecode : Bytecode) :
    ∀ v ∈ InterpreterState bytecode, v = IValue.none := by
  intro v hv
  exact List.eq_of_mem_replicate hv

theorem exec_next_slot (NDEBUG : Bool) (disp : Dispatcher) (code : Bytecode) (inst : Instruction)
    (s s1 : State) (h : exec NDEBUG disp code inst s = Outcome.next s1)
    (hop : inst.op = OpCode.STORE ∨ inst.op = OpCode.DROPR ∨ inst.op = OpCode.MOVE) :
    ∀ k2 : Nat, regSlot s.registers_ inst.X ≠ some k2 →
      s1.registers_[k2]? = s.registers_[k2]? := by
  obtain ⟨op, X, N⟩ := inst
  have hkey : ∀ v, regSet s.registers_ X v = some s1.registers_ →
      ∀ k2 : Nat, regSlot s.registers_ X ≠ some k2 →
        s1.registers_[k2]? = s.registers_[k2]? := by
    intro v hset k2 hk2
    obtain ⟨k, hk, hregs⟩ := regSet_eq_set hset
    rw [hregs, List.getElem?_set_ne]
    intro hkk
    exact hk2 (by rw [hk, hkk])
  simp only at hop
  rcases hop with rfl | rfl | rfl
  · obtain ⟨_, v, _, _, hset, _, _⟩ := exec_STORE_frame NDEBUG disp code X N s s1 h
    exact hkey v hset
  · exact hkey _ (exec_DROPR_frame NDEBUG disp code X N s s1 h)
  · exact hkey _ (exec_MOVE_frame NDEBUG disp code X N s s1 h)

theorem exec_OP_miss (NDEBUG : Bool) (disp : Dispatcher) (code : Bytecode) (X : Int) (N : Nat)
    (s : State) (opname : OperatorName)
    (hname : vecAt code.op_names_ X = some opname)
    (hmiss : disp.findSchema opname = Option.none) :
    exec NDEBUG disp code ⟨OpCode.OP, X, N⟩ s
      = if NDEBUG = true then Outcome.undefined else Outcome.fatal Fault.assertFailed s := by
  simp only [exec, caseOP, hname, hmiss]

theorem exec_next_staysInside (NDEBUG : Bool) (disp : Dispatcher) (code : Bytecode)
    (inst : Instruction) (s s1 : State) (n : Nat)
    (h : exec NDEBUG disp code inst s = Outcome.next s1)
    (hin : staysInside n s.pc inst = true) : s1.pc < n := by
  have hc := exec_pc_cases NDEBUG disp code inst s s1 h
  obtain ⟨op, X, N⟩ := inst
  cases op <;>
    simp only [staysInside, decide_eq_true_eq, Bool.and_eq_true] at hin <;>
    simp only [List.mem_cons, List.mem_singleton, List.not_mem_nil, or_false, reduceCtorEq,
      false_and, or_self, false_or, true_and, or_true, true_or] at hc
  all_goals first
    | (rw [hc]; exact hin)
    | (obtain ⟨b, _, hpc⟩ := hc
       cases b
       · rw [hpc]; simpa using hin.2
       · rw [hpc]; simpa using hin.1)
    | (obtain ⟨t, m, c, _, _, _, hpc⟩ := hc
       rw [hpc]
       split
       · exact hin.1
       · exact hin.2)

theorem runFor_pc_inside (NDEBUG : Bool) (disp : Dispatcher) (code : Bytecode)
    (hwf : successorsInside code.instructions_) :
    ∀ (n : Nat) (s0 s : State), s0.pc < code.instructions_.length →
      runFor NDEBUG disp code n s0 = Outcome.next s → s.pc < code.instructions_.length := by
  intro n
  induction n with
  | zero =>
    intro s0 s h0 hrun
    simp only [runFor] at hrun
    injection hrun with hrun
    rw [← hrun]; exact h0
  | succ n ih =>
    intro s0 s h0 hrun
    have hfetch : code.instructions_[s0.pc]? = some code.instructions_[s0.pc] :=
      List.getElem?_eq_getElem h0
    cases hs : step NDEBUG disp code s0 with
    | next s1 =>
      have hexec : exec NDEBUG disp code code.instructions_[s0.pc] s0 = Outcome.next s1 := by
        simpa only [step, hfetch] using hs
      have h1 : s1.pc < code.instructions_.length :=
        exec_next_staysInside NDEBUG disp code _ s0 s1 _ hexec (hwf s0.pc h0)
      have hrun1 : runFor NDEBUG disp code (n + 1) s0 = runFor NDEBUG disp code n s1 := by
        simp only [runFor, hs]
      rw [hrun1] at hrun
      exact ih s1 s h1 hrun
    | ret s1 => simp only [runFor, hs] at hrun; cases hrun
    | fatal e s1 => simp only [runFor, hs] at hrun; cases hrun
    | undefined => simp only [runFor, hs] at hrun; cases hrun

/-! ## The claims -/

/-- C1 (LOOP exit step). For a LOOP instruction with operands X and N ≥ 2 and a
stack `pre ++ [Int i, Int m, Bool c] ++ deps` with `N - 2` carried values, when
`i < m ∧ c` does not hold one pass yields the stack `pre ++ deps` (three slots
shorter), leaves registers, objects and output as they were and sets `pc` to
`pc + X` in `size_t` arithmetic, which is the integer `pc + X` whenever that
lies in the range of `size_t`. -/
theorem loop_exit_step (NDEBUG : Bool) (disp : Dispatcher) (code : Bytecode) (X : Int) (N : Nat) (s : State)
    (pre deps : List IValue) (i m : Int) (c : Bool)
    (hN : 2 ≤ N)
    (hstack : s.stack = pre ++ [IValue.int i, IValue.int m, IValue.bool c] ++ deps)
    (hdeps : deps.length = N - 2)
    (hexit : ¬ (i < m ∧ c = true)) :
    exec NDEBUG disp code ⟨OpCode.LOOP, X, N⟩ s
        = Outcome.next { stack := pre ++ deps, registers_ := s.registers_, pc := pcAdd s.pc X,
                         objects := s.objects, cout := s.cout } ∧
      (pre ++ deps).length + 3 = s.stack.length ∧
      (0 ≤ (s.pc : Int) + X → (s.pc : Int) + X < 2 ^ 64 →
        ((pcAdd s.pc X : Nat) : Int) = (s.pc : Int) + X) := by
  refine ⟨exec_LOOP_exit NDEBUG disp code X N s pre deps i m c hN hstack hdeps hexit, ?_,
    pcAdd_exact s.pc X⟩
  rw [hstack]
  simp only [List.length_append, List.length_cons, List.length_nil]
  omega

/-- C2 (LOOP continue step). For a LOOP instruction with operands X and N ≥ 2 and
a stack `pre ++ [Int i, Int m, Bool true] ++ deps` with `N - 2` carried values
and `i < m` (both 64-bit values), one pass yields the stack
`pre ++ [Int (i+1), Int m, Int i] ++ deps` of the same depth, leaves everything
else as it was and sets `pc` to `pc + 1`. -/
theorem loop_continue_step (NDEBUG : Bool) (disp : Dispatcher) (code : Bytecode) (X : Int) (N : Nat) (s : State)
    (pre deps : List IValue) (i m : Int)
    (hN : 2 ≤ N)
    (hstack : s.stack = pre ++ [IValue.int i, IValue.int m, IValue.bool true] ++ deps)
    (hdeps : deps.length = N - 2)
    (hi : -(2 : Int) ^ 63 ≤ i) (hm : m < (2 : Int) ^ 63)
    (hlt : i < m) :
    exec NDEBUG disp code ⟨OpCode.LOOP, X, N⟩ s
        = Outcome.next { stack := pre ++ [IValue.int (i + 1), IValue.int m, IValue.int i] ++ deps,
                         registers_ := s.registers_, pc := pcAdd s.pc 1,
                         objects := s.objects, cout := s.cout } ∧
      (pre ++ [IValue.int (i + 1), IValue.int m, IValue.int i] ++ deps).length = s.stack.length ∧
      (s.pc + 1 < 2 ^ 64 → pcAdd s.pc 1 = s.pc + 1) := by
  refine ⟨exec_LOOP_continue NDEBUG disp code X N s pre deps i m hN hstack hdeps hi hm hlt, ?_,
    pcAdd_one s.pc⟩
  rw [hstack]
  simp only [List.length_append, List.length_cons, List.length_nil]

theorem loop_exit_step_witness :
    exec debugBuild demoDispatcher demoBytecode ⟨OpCode.LOOP, 5, 3⟩
        (demoState [IValue.int 3, IValue.int 3, IValue.bool true, IValue.int 10] [])
      = Outcome.next (State.mk [IValue.int 10] [] 12 [] []) :=
  (loop_exit_step debugBuild demoDispatcher demoBytecode 5 3
    (demoState [IValue.int 3, IValue.int 3, IValue.bool true, IValue.int 10] [])
    [] [IValue.int 10] 3 3 true (by decide) rfl rfl (by decide)).1

theorem loop_continue_step_witness :
    exec debugBuild demoDispatcher demoBytecode ⟨OpCode.LOOP, 5, 3⟩
        (demoState [IValue.int 0, IValue.int 3, IValue.bool true, IValue.int 10] [])
      = Outcome.next
          (State.mk [IValue.int 1, IValue.int 3, IValue.int 0, IValue.int 10] [] 8 [] []) :=
  (loop_continue_step debugBuild demoDispatcher demoBytecode 5 3
    (demoState [IValue.int 0, IValue.int 3, IValue.bool true, IValue.int 10] [])
    [] [IValue.int 10] 0 3 (by decide) rfl rfl (by decide) (by decide) (by decide)).1

/-- C3, as stated: LOOP passes that follow each other directly on the window
`[0, 3, true, 10]` do not all continue. The first pass continues and leaves
`[1, 3, Int 0, 10]`; the second pass finds the integer `0` in the condition slot
and fails its boolean tag assertion, so there are no two continuing passes in
a row. -/
theorem loop_back_to_back_fails :
    exec debugBuild demoDispatcher demoBytecode ⟨OpCode.LOOP, 5, 3⟩
        (demoState [IValue.int 0, IValue.int 3, IValue.bool true, IValue.int 10] [])
      = Outcome.next
          (State.mk [IValue.int 1, IValue.int 3, IValue.int 0, IValue.int 10] [] 8 [] []) ∧
    exec debugBuild demoDispatcher demoBytecode ⟨OpCode.LOOP, 5, 3⟩
        (State.mk [IValue.int 1, IValue.int 3, IValue.int 0, IValue.int 10] [] 8 [] [])
      = Outcome.fatal (Fault.typeMismatch Tag.Bool)
          (State.mk [IValue.int 1, IValue.int 3, IValue.int 0, IValue.int 10] [] 8 [] []) ∧
    ¬ ∃ s1 s2 : State,
        exec debugBuild demoDispatcher demoBytecode ⟨OpCode.LOOP, 5, 3⟩
          (demoState [IValue.int 0, IValue.int 3, IValue.bool true, IValue.int 10] [])
            = Outcome.next s1 ∧
        exec debugBuild demoDispatcher demoBytecode ⟨OpCode.LOOP, 5, 3⟩ s1 = Outcome.next s2 := by
  have h1 : exec debugBuild demoDispatcher demoBytecode ⟨OpCode.LOOP, 5, 3⟩
        (demoState [IValue.int 0, IValue.int 3, IValue.bool true, IValue.int 10] [])
      = Outcome.next
          (State.mk [IValue.int 1, IValue.int 3, IValue.int 0, IValue.int 10] [] 8 [] []) := rfl
  have h2 : exec debugBuild demoDispatcher demoBytecode ⟨OpCode.LOOP, 5, 3⟩
        (State.mk [IValue.int 1, IValue.int 3, IValue.int 0, IValue.int 10] [] 8 [] [])
      = Outcome.fatal (Fault.typeMismatch Tag.Bool)
          (State.mk [IValue.int 1, IValue.int 3, IValue.int 0, IValue.int 10] [] 8 [] []) := rfl
  refine ⟨h1, h2, ?_⟩
  rintro ⟨s1, s2, hs1, hs2⟩
  rw [h1] at hs1
  injection hs1 with hs1
  rw [← hs1, h2] at hs2
  cases hs2

/-- C3, amended. From the window `[0, 3, true, 10]` with N = 3 and X = 5, when the
loop body between two LOOP passes puts `true` back into the condition slot and
returns to the LOOP instruction, three LOOP passes continue (`pc + 1`), leaving
the iteration counts 1, 2, 3 and handing 0, 1, 2 to the body, and the fourth
pass exits with the stack `[10]` and `pc + 5`. -/
theorem loop_four_cycles (NDEBUG : Bool) (disp : Dispatcher) (code : Bytecode) (registers_ : List IValue)
    (pc : Nat) (objects : List (List IValue)) (cout : List Printed) :
    ∃ s1 s2 s3 : State,
      exec NDEBUG disp code ⟨OpCode.LOOP, 5, 3⟩
          (State.mk [IValue.int 0, IValue.int 3, IValue.bool true, IValue.int 10]
            registers_ pc objects cout) = Outcome.next s1 ∧
      s1.stack = [IValue.int 1, IValue.int 3, IValue.int 0, IValue.int 10] ∧
      s1.pc = pcAdd pc 1 ∧
      exec NDEBUG disp code ⟨OpCode.LOOP, 5, 3⟩ (bodyKeepsGoing 0 pc s1) = Outcome.next s2 ∧
      s2.stack = [IValue.int 2, IValue.int 3, IValue.int 1, IValue.int 10] ∧
      s2.pc = pcAdd pc 1 ∧
      exec NDEBUG disp code ⟨OpCode.LOOP, 5, 3⟩ (bodyKeepsGoing 0 pc s2) = Outcome.next s3 ∧
      s3.stack = [IValue.int 3, IValue.int 3, IValue.int 2, IValue.int 10] ∧
      s3.pc = pcAdd pc 1 ∧
      exec NDEBUG disp code ⟨OpCode.LOOP, 5, 3⟩ (bodyKeepsGoing 0 pc s3)
        = Outcome.next (State.mk [IValue.int 10] registers_ (pcAdd pc 5) objects cout) :=
  ⟨_, _, _,
    exec_LOOP_continue NDEBUG disp code 5 3 _ [] [IValue.int 10] 0 3 (by decide) rfl rfl
      (by decide) (by decide) (by decide), rfl, rfl,
    exec_LOOP_continue NDEBUG disp code 5 3 _ [] [IValue.int 10] 1 3 (by decide) rfl rfl
      (by decide) (by decide) (by decide), rfl, rfl,
    exec_LOOP_continue NDEBUG disp code 5 3 _ [] [IValue.int 10] 2 3 (by decide) rfl rfl
      (by decide) (by decide) (by decide), rfl, rfl,
    exec_LOOP_exit NDEBUG disp code 5 3 _ [] [IValue.int 10] 3 3 true (by decide) rfl rfl (by decide)⟩

/-- C4 (STOREN order). For X ≥ 1 and N ≥ 0 with the registers X..X+N-1 inside the
register file and a stack `pre ++ [v_0, ..., v_{N-1}]`, one pass of STOREN X N
leaves the stack `pre`, puts `v_j` into register `X + j` for every `j < N`,
leaves every register outside X..X+N-1 as it was, keeps the size of the
register file and sets `pc` to `pc + 1`. -/
theorem storen_order (NDEBUG : Bool) (disp : Dispatcher) (code : Bytecode) (X : Int) (N : Nat) (s : State)
    (pre vs : List IValue)
    (hX : 1 ≤ X)
    (hvalid : ∀ j : Nat, j < N → X + j ≤ s.registers_.length)
    (hstack : s.stack = pre ++ vs)
    (hvs : vs.length = N) :
    ∃ registers1 : List IValue,
      exec NDEBUG disp code ⟨OpCode.STOREN, X, N⟩ s
        = Outcome.next { stack := pre, registers_ := registers1, pc := pcAdd s.pc 1,
                         objects := s.objects, cout := s.cout } ∧
      registers1.length = s.registers_.length ∧
      (∀ j : Nat, j < N → regGet registers1 (X + j) = vs[j]?) ∧
      (∀ r : Int, r < X ∨ X + N ≤ r → regGet registers1 r = regGet s.registers_ r) ∧
      (s.pc + 1 < 2 ^ 64 → pcAdd s.pc 1 = s.pc + 1) := by
  subst hvs
  obtain ⟨registers1, hrun, hget⟩ := storeLoop_spec X pre vs s.registers_ (fun j hj =>
    ⟨by omega, hvalid j hj⟩)
  obtain ⟨hl, hfr⟩ := storeLoop_frame X vs.length (pre ++ vs) s.registers_ pre registers1 hrun
  refine ⟨registers1, ?_, hl, hget, hfr, pcAdd_one s.pc⟩
  simp only [exec, caseSTOREN, hstack, hrun]

theorem storen_order_witness :
    ∃ registers1 : List IValue,
      exec debugBuild demoDispatcher demoBytecode ⟨OpCode.STOREN, 1, 2⟩
          (demoState [IValue.int 5, IValue.int 7, IValue.int 9] [IValue.none, IValue.none])
        = Outcome.next (State.mk [IValue.int 5] registers1 8 [] []) ∧
      regGet registers1 1 = some (IValue.int 7) ∧
      regGet registers1 2 = some (IValue.int 9) := by
  obtain ⟨registers1, hexec, _, hget, _⟩ :=
    storen_order debugBuild demoDispatcher demoBytecode 1 2
      (demoState [IValue.int 5, IValue.int 7, IValue.int 9] [IValue.none, IValue.none])
      [IValue.int 5] [IValue.int 7, IValue.int 9] (by decide)
      (by intro j hj; simp only [demoState, List.length_cons, List.length_nil]; omega) rfl rfl
  exact ⟨registers1, hexec, hget 0 (by decide), hget 1 (by decide)⟩

/-- C5 (LIST_CONSTRUCT order and stack effect). For every selector N and every
stack `pre ++ elems` whose `X = length elems` top elements carry the tag the
selector asks for, one pass of LIST_CONSTRUCT yields `pre ++ [l]`, where `l` is
a list value of the kind the selector stands for that holds exactly `elems`, in
stack order; the depth changes by `1 - X`, registers are untouched and `pc`
becomes `pc + 1`. -/
theorem list_construct_step (NDEBUG : Bool) (disp : Dispatcher) (code : Bytecode) (X : Int) (N : Nat) (s : State)
    (pre elems : List IValue)
    (hstack : s.stack = pre ++ elems)
    (hX : (elems.length : Int) = X)
    (htag : ∀ t, requiredTag N = some t → ∀ v ∈ elems, v.tag = t) :
    ∃ l : IValue,
      exec NDEBUG disp code ⟨OpCode.LIST_CONSTRUCT, X, N⟩ s
        = Outcome.next { stack := pre ++ [l], registers_ := s.registers_, pc := pcAdd s.pc 1,
                         objects := s.objects, cout := s.cout } ∧
      l.elements = some elems ∧
      l.tag = listTag N ∧
      ((pre ++ [l]).length : Int) = (s.stack.length : Int) + (1 - X) ∧
      (s.pc + 1 < 2 ^ 64 → pcAdd s.pc 1 = s.pc + 1) := by
  subst hX
  obtain ⟨l, hexec, hel, hlt⟩ := exec_LIST_CONSTRUCT_ok NDEBUG disp code N s pre elems hstack htag
  refine ⟨l, hexec, hel, hlt, ?_, pcAdd_one s.pc⟩
  rw [hstack]
  simp only [List.length_append, List.length_cons, List.length_nil]
  push_cast
  omega

theorem list_construct_step_witness :
    exec debugBuild demoDispatcher demoBytecode ⟨OpCode.LIST_CONSTRUCT, 3, 1⟩
        (demoState [IValue.bool true, IValue.int 1, IValue.int 2, IValue.int 3] [])
      = Outcome.next (State.mk [IValue.bool true, IValue.intList [1, 2, 3]] [] 8 [] []) := by
  obtain ⟨l, hexec, hel, hlt, _⟩ :=
    list_construct_step debugBuild demoDispatcher demoBytecode 3 1
      (demoState [IValue.bool true, IValue.int 1, IValue.int 2, IValue.int 3] [])
      [IValue.bool true] [IValue.int 1, IValue.int 2, IValue.int 3] rfl rfl
      (by
        intro t ht v hv
        have ht1 : t = Tag.Int := by simp [requiredTag] at ht; exact ht.symm
        subst ht1
        simp only [List.mem_cons, List.mem_singleton, List.not_mem_nil, or_false] at hv
        rcases hv with rfl | rfl | rfl <;> rfl)
  rw [hexec, intList_of_elements l [1, 2, 3] hel hlt]
  rfl

/-- C6 (LIST_CONSTRUCT type checking). On a stack `pre ++ elems` with
`X = length elems`: for a selector in 1..4, asking for the tag Int, Double, Bool
or Tensor, the pass ends in a fatal error exactly when some element of `elems`
does not carry that tag, the error is the tag mismatch for that tag, and with
all tags right the pushed list holds exactly `elems`; for every other selector
the pass succeeds whatever the tags are and pushes the heterogeneous list of
`elems`. -/
theorem list_construct_type_check (NDEBUG : Bool) (disp : Dispatcher) (code : Bytecode) (X : Int) (N : Nat)
    (s : State) (pre elems : List IValue)
    (hstack : s.stack = pre ++ elems)
    (hX : (elems.length : Int) = X) :
    (∀ t, requiredTag N = some t →
      ((∃ e s1, exec NDEBUG disp code ⟨OpCode.LIST_CONSTRUCT, X, N⟩ s = Outcome.fatal e s1) ↔
        ∃ v ∈ elems, v.tag ≠ t) ∧
      ((∃ v ∈ elems, v.tag ≠ t) →
        ∃ s1, exec NDEBUG disp code ⟨OpCode.LIST_CONSTRUCT, X, N⟩ s
          = Outcome.fatal (Fault.typeMismatch t) s1) ∧
      ((∀ v ∈ elems, v.tag = t) →
        ∃ l : IValue,
          exec NDEBUG disp code ⟨OpCode.LIST_CONSTRUCT, X, N⟩ s
            = Outcome.next { stack := pre ++ [l], registers_ := s.registers_,
                             pc := pcAdd s.pc 1, objects := s.objects, cout := s.cout } ∧
          l.elements = some elems)) ∧
    (requiredTag N = Option.none →
      exec NDEBUG disp code ⟨OpCode.LIST_CONSTRUCT, X, N⟩ s
        = Outcome.next { stack := pre ++ [IValue.genericList elems], registers_ := s.registers_,
                         pc := pcAdd s.pc 1, objects := s.objects, cout := s.cout }) := by
  subst hX
  refine ⟨fun t ht => ⟨⟨?_, ?_⟩, ?_, ?_⟩, ?_⟩
  · rintro ⟨e, s1, hf⟩
    by_contra hall
    have hall1 : ∀ t1, requiredTag N = some t1 → ∀ v ∈ elems, v.tag = t1 := by
      intro t1 ht1 v hv
      rw [ht] at ht1
      injection ht1 with ht1
      subst ht1
      by_contra hne
      exact hall ⟨v, hv, hne⟩
    obtain ⟨l, hexec, _⟩ := exec_LIST_CONSTRUCT_ok NDEBUG disp code N s pre elems hstack hall1
    rw [hexec] at hf
    cases hf
  · intro hbad
    obtain ⟨s1, h1⟩ := exec_LIST_CONSTRUCT_mismatch NDEBUG disp code N s pre elems t hstack ht hbad
    exact ⟨_, s1, h1⟩
  · exact exec_LIST_CONSTRUCT_mismatch NDEBUG disp code N s pre elems t hstack ht
  · intro hall
    obtain ⟨l, hexec, hel, _⟩ := exec_LIST_CONSTRUCT_ok NDEBUG disp code N s pre elems hstack
      (fun t1 ht1 v hv => by
        rw [ht] at ht1
        injection ht1 with ht1
        rw [← ht1]
        exact hall v hv)
    exact ⟨l, hexec, hel⟩
  · intro hN
    exact caseLIST_CONSTRUCT_generic _ N s pre elems hN hstack

theorem list_construct_type_check_witness :
    ∃ s1, exec debugBuild demoDispatcher demoBytecode ⟨OpCode.LIST_CONSTRUCT, 2, 3⟩
        (demoState [IValue.bool true, IValue.int 1] [])
      = Outcome.fatal (Fault.typeMismatch Tag.Bool) s1 :=
  ((list_construct_type_check debugBuild demoDispatcher demoBytecode 2 3
      (demoState [IValue.bool true, IValue.int 1] []) [] [IValue.bool true, IValue.int 1]
      rfl rfl).1 Tag.Bool rfl).2.1 ⟨IValue.int 1, by simp, by simp [IValue.tag]⟩

/-- C7 (MOVE vacates its register). For a register X inside the register file
that holds `v`, one pass of MOVE X pushes `v`, leaves the empty value in
register X, leaves every other register as it was and sets `pc` to `pc + 1`.
After any further passes none of which is a STORE into X or a STOREN whose range
contains X, a LOAD X and a MOVE X both push the empty value. -/
theorem move_vacates (NDEBUG : Bool) (disp : Dispatcher) (code : Bytecode) (X : Int) (N : Nat) (s : State)
    (v : IValue)
    (hv : regGet s.registers_ X = some v) :
    ∃ s1 : State,
      exec NDEBUG disp code ⟨OpCode.MOVE, X, N⟩ s = Outcome.next s1 ∧
      s1.stack = s.stack ++ [v] ∧
      regGet s1.registers_ X = some IValue.none ∧
      (∀ r : Int, r ≠ X → regGet s1.registers_ r = regGet s.registers_ r) ∧
      s1.registers_.length = s.registers_.length ∧
      s1.pc = pcAdd s.pc 1 ∧
      (s.pc + 1 < 2 ^ 64 → pcAdd s.pc 1 = s.pc + 1) ∧
      ∀ (trace : List Instruction) (s2 : State),
        (∀ inst ∈ trace, ¬ storesInto inst X) →
        execTrace NDEBUG disp code trace s1 = some s2 →
        ∀ N2 : Nat,
          exec NDEBUG disp code ⟨OpCode.LOAD, X, N2⟩ s2
            = Outcome.next { stack := s2.stack ++ [IValue.none], registers_ := s2.registers_,
                             pc := pcAdd s2.pc 1, objects := s2.objects, cout := s2.cout } ∧
          ∃ s3 : State,
            exec NDEBUG disp code ⟨OpCode.MOVE, X, N2⟩ s2 = Outcome.next s3 ∧
            s3.stack = s2.stack ++ [IValue.none] := by
  obtain ⟨registers1, hset, hexec⟩ := exec_MOVE NDEBUG disp code X N s v hv
  refine ⟨_, hexec, rfl, regGet_regSet_same hset, fun r hr => regGet_regSet_ne hset hr,
    regSet_length hset, rfl, pcAdd_one s.pc, ?_⟩
  intro trace s2 hns htrace N2
  have h2 : regGet s2.registers_ X = some IValue.none :=
    execTrace_keeps_vacated NDEBUG disp code X trace _ s2 hns (regGet_regSet_same hset) htrace
  refine ⟨exec_LOAD NDEBUG disp code X N2 s2 IValue.none h2, ?_⟩
  obtain ⟨registers3, _, hexec3⟩ := exec_MOVE NDEBUG disp code X N2 s2 IValue.none h2
  exact ⟨_, hexec3, rfl⟩

theorem move_vacates_witness :
    ∃ s1 : State,
      exec debugBuild demoDispatcher demoBytecode ⟨OpCode.MOVE, 2, 0⟩
          (demoState [] [IValue.int 5, IValue.bool false]) = Outcome.next s1 ∧
      s1.stack = [IValue.int 5] ∧
      regGet s1.registers_ 2 = some IValue.none := by
  obtain ⟨s1, hexec, hstack, hreg, _⟩ :=
    move_vacates debugBuild demoDispatcher demoBytecode 2 0 (demoState [] [IValue.int 5, IValue.bool false])
      (IValue.int 5) rfl
  exact ⟨s1, hexec, hstack, hreg⟩

/-- C8 at the failing input: an OP whose operand names `aten::add.Tensor`, with a
registry that resolves no operator. In a build with `NDEBUG` the statement
`assert(op.has_value())` is empty, the pass goes on to `callBoxed(*op, &stack)`
on the empty optional and is undefined behaviour: it does not end in a fatal
error. In a build without `NDEBUG` the assertion fails and aborts the process,
with the state as it was before the pass. -/
theorem op_lookup_miss_release_build :
    exec releaseBuild demoDispatcher demoBytecode ⟨OpCode.OP, 0, 0⟩ (demoState [IValue.int 1] [])
      = Outcome.undefined ∧
    (¬ ∃ (e : Fault) (s1 : State),
      exec releaseBuild demoDispatcher demoBytecode ⟨OpCode.OP, 0, 0⟩
        (demoState [IValue.int 1] []) = Outcome.fatal e s1) ∧
    exec debugBuild demoDispatcher demoBytecode ⟨OpCode.OP, 0, 0⟩ (demoState [IValue.int 1] [])
      = Outcome.fatal Fault.assertFailed (demoState [IValue.int 1] []) := by
  have h := exec_OP_miss releaseBuild demoDispatcher demoBytecode 0 0
    (demoState [IValue.int 1] []) { name := "aten::add", overload_name := "Tensor" } rfl rfl
  refine ⟨h, ?_, exec_OP_miss debugBuild demoDispatcher demoBytecode 0 0
    (demoState [IValue.int 1] []) { name := "aten::add", overload_name := "Tensor" } rfl rfl⟩
  rintro ⟨e, s1, hf⟩
  rw [h] at hf
  cases hf

/-- C9 (unsupported opcodes). A pass whose instruction is CALL, INTERFACE_CALL,
WAIT, GUARD or TAIL_CALL ends, for every state and all operands, in the fatal
error whose message is `Instruction <opcode> is not supported in mobile.` with
the spelling of that opcode; `run` stops with that error; and the messages of
two different unsupported opcodes differ. -/
theorem unsupported_opcodes (NDEBUG : Bool) (disp : Dispatcher) (code : Bytecode) (op : OpCode) (X : Int)
    (N : Nat) (s : State)
    (hop : op ∈ [OpCode.CALL, OpCode.INTERFACE_CALL, OpCode.WAIT, OpCode.GUARD,
      OpCode.TAIL_CALL]) :
    exec NDEBUG disp code ⟨op, X, N⟩ s
      = Outcome.fatal (Fault.unsupportedOpcode (unsupportedMessage op)) s ∧
    (∀ fuel : Nat, code.instructions_[s.pc]? = some ⟨op, X, N⟩ →
      runFor NDEBUG disp code (fuel + 1) s
        = Outcome.fatal (Fault.unsupportedOpcode (unsupportedMessage op)) s) ∧
    (∀ op2 ∈ [OpCode.CALL, OpCode.INTERFACE_CALL, OpCode.WAIT, OpCode.GUARD, OpCode.TAIL_CALL],
      op2 ≠ op → unsupportedMessage op2 ≠ unsupportedMessage op) := by
  have h : exec NDEBUG disp code ⟨op, X, N⟩ s
      = Outcome.fatal (Fault.unsupportedOpcode (unsupportedMessage op)) s := by
    simp only [List.mem_cons, List.mem_singleton, List.not_mem_nil, or_false] at hop
    rcases hop with rfl | rfl | rfl | rfl | rfl <;> rfl
  refine ⟨h, ?_, ?_⟩
  · intro fuel hfetch
    exact runFor_of_not_next NDEBUG disp code _ s _ fuel hfetch h (fun s1 hc => by cases hc)
  · intro op2 hop2 hne
    simp only [List.mem_cons, List.mem_singleton, List.not_mem_nil, or_false] at hop hop2
    rcases hop with rfl | rfl | rfl | rfl | rfl <;>
      rcases hop2 with rfl | rfl | rfl | rfl | rfl <;>
      first
        | exact absurd rfl hne
        | decide

theorem unsupported_opcodes_witness :
    exec debugBuild demoDispatcher demoBytecode ⟨OpCode.WAIT, 3, 4⟩ (demoState [IValue.int 1] [])
      = Outcome.fatal (Fault.unsupportedOpcode "Instruction WAIT is not supported in mobile.")
          (demoState [IValue.int 1] []) :=
  (unsupported_opcodes debugBuild demoDispatcher demoBytecode OpCode.WAIT 3 4 (demoState [IValue.int 1] [])
    (by decide)).1

/-- C10 (JF). On a stack `pre ++ [v]`, one pass of JF leaves the stack `pre` and
the registers untouched and sets `pc` to `pc + 1` when `v` is `Bool true` and to
`pc + X` when `v` is `Bool false`; when `v` is not a boolean the pass ends in
the fatal tag mismatch, after `v` has been popped. -/
theorem jf_step (NDEBUG : Bool) (disp : Dispatcher) (code : Bytecode) (X : Int) (N : Nat) (s : State)
    (pre : List IValue) (v : IValue)
    (hstack : s.stack = pre ++ [v]) :
    (v = IValue.bool true →
      exec NDEBUG disp code ⟨OpCode.JF, X, N⟩ s
        = Outcome.next { stack := pre, registers_ := s.registers_, pc := pcAdd s.pc 1,
                         objects := s.objects, cout := s.cout }) ∧
    (v = IValue.bool false →
      exec NDEBUG disp code ⟨OpCode.JF, X, N⟩ s
        = Outcome.next { stack := pre, registers_ := s.registers_, pc := pcAdd s.pc X,
                         objects := s.objects, cout := s.cout }) ∧
    (v.tag ≠ Tag.Bool →
      exec NDEBUG disp code ⟨OpCode.JF, X, N⟩ s
        = Outcome.fatal (Fault.typeMismatch Tag.Bool)
            { stack := pre, registers_ := s.registers_, pc := s.pc,
              objects := s.objects, cout := s.cout }) ∧
    (s.pc + 1 < 2 ^ 64 → pcAdd s.pc 1 = s.pc + 1) ∧
    (0 ≤ (s.pc : Int) + X → (s.pc : Int) + X < 2 ^ 64 →
      ((pcAdd s.pc X : Nat) : Int) = (s.pc : Int) + X) := by
  refine ⟨?_, ?_, ?_, pcAdd_one s.pc, pcAdd_exact s.pc X⟩
  · intro hv
    subst hv
    simp only [exec, caseJF, hstack, pop_concat, IValue.toBool, if_true]
  · intro hv
    subst hv
    simp only [exec, caseJF, hstack, pop_concat, IValue.toBool]
    rfl
  · intro hv
    simp only [exec, caseJF, hstack, pop_concat, toBool_none v hv]

theorem jf_step_witness :
    exec debugBuild demoDispatcher demoBytecode ⟨OpCode.JF, 4, 0⟩
        (demoState [IValue.int 1, IValue.bool false] [])
      = Outcome.next (State.mk [IValue.int 1] [] 11 [] []) :=
  (jf_step debugBuild demoDispatcher demoBytecode 4 0 (demoState [IValue.int 1, IValue.bool false] [])
    [IValue.int 1] (IValue.bool false) rfl).2.1 rfl

/-- C11 (LOAD is a non-destructive read). For a register X inside the register
file that holds `v` and every stack, one pass of LOAD X yields the stack with
`v` pushed, leaves the whole register file (register X included), the objects
and the output as they were and sets `pc` to `pc + 1`; a second LOAD X right
after it pushes `v` again. -/
theorem load_nondestructive (NDEBUG : Bool) (disp : Dispatcher) (code : Bytecode) (X : Int) (N : Nat) (s : State)
    (v : IValue)
    (hv : regGet s.registers_ X = some v) :
    exec NDEBUG disp code ⟨OpCode.LOAD, X, N⟩ s
      = Outcome.next { stack := s.stack ++ [v], registers_ := s.registers_, pc := pcAdd s.pc 1,
                       objects := s.objects, cout := s.cout } ∧
    exec NDEBUG disp code ⟨OpCode.LOAD, X, N⟩
        { stack := s.stack ++ [v], registers_ := s.registers_, pc := pcAdd s.pc 1,
          objects := s.objects, cout := s.cout }
      = Outcome.next { stack := s.stack ++ [v] ++ [v], registers_ := s.registers_,
                       pc := pcAdd (pcAdd s.pc 1) 1, objects := s.objects, cout := s.cout } ∧
    (s.pc + 1 < 2 ^ 64 → pcAdd s.pc 1 = s.pc + 1) :=
  ⟨exec_LOAD NDEBUG disp code X N s v hv, exec_LOAD NDEBUG disp code X N _ v hv, pcAdd_one s.pc⟩

theorem load_nondestructive_witness :
    exec debugBuild demoDispatcher demoBytecode ⟨OpCode.LOAD, 1, 0⟩
        (demoState [IValue.int 4] [IValue.int 5, IValue.bool false])
      = Outcome.next (State.mk [IValue.int 4, IValue.bool false]
          [IValue.int 5, IValue.bool false] 8 [] []) :=
  (load_nondestructive debugBuild demoDispatcher demoBytecode 1 0
    (demoState [IValue.int 4] [IValue.int 5, IValue.bool false]) (IValue.bool false) rfl).1

/-- C12 (RET). For every state and all operands, a pass whose instruction is RET
ends in the `return` of `run` with the stack, the registers and the rest of the
state exactly as before the pass, and `run` makes no further pass: with any
amount of further fuel the result is that same return. -/
theorem ret_halts (NDEBUG : Bool) (disp : Dispatcher) (code : Bytecode) (X : Int) (N : Nat) (s : State) :
    exec NDEBUG disp code ⟨OpCode.RET, X, N⟩ s = Outcome.ret s ∧
    (∀ fuel : Nat, code.instructions_[s.pc]? = some ⟨OpCode.RET, X, N⟩ →
      runFor NDEBUG disp code (fuel + 1) s = Outcome.ret s) := by
  refine ⟨rfl, fun fuel hfetch => ?_⟩
  exact runFor_of_not_next NDEBUG disp code _ s _ fuel hfetch rfl (fun s1 hc => by cases hc)

theorem ret_halts_witness :
    runFor debugBuild demoDispatcher demoProgram 3 (State.mk [IValue.int 4] [IValue.none] 1 [] [])
      = Outcome.ret (State.mk [IValue.int 4] [IValue.none] 1 [] []) :=
  (ret_halts debugBuild demoDispatcher demoProgram 0 0 (State.mk [IValue.int 4] [IValue.none] 1 [] [])).2
    2 rfl

/-- C13 (register addressing). For a register file of `size` slots and a logical
index `1 ≤ r ≤ size`, `reg(r)` is the slot at position `size - r`: `reg(1)` is
the last slot and `reg(size)` the first, for a fresh interpreter state `size` is
`agg_size_`, and two valid indices with the same slot are equal. Hence a STORE
into register `r` leaves what a LOAD of another valid register pushes as it
was. -/
theorem reg_addressing (registers_ : List IValue) (r : Int)
    (h1 : 1 ≤ r) (h2 : r ≤ registers_.length) :
    regSlot registers_ r = some (registers_.length - r.toNat) ∧
    ((registers_.length - r.toNat : Nat) : Int) = (registers_.length : Int) - r ∧
    regSlot registers_ 1 = some (registers_.length - 1) ∧
    regSlot registers_ (registers_.length : Int) = some 0 ∧
    (∀ r2 : Int, 1 ≤ r2 → r2 ≤ registers_.length →
      regSlot registers_ r2 = regSlot registers_ r → r2 = r) ∧
    (∀ bytecode : Bytecode, registers_ = InterpreterState bytecode →
      regSlot registers_ r = some (bytecode.agg_size_ - r.toNat)) ∧
    (∀ (NDEBUG : Bool) (disp : Dispatcher) (code : Bytecode) (N N2 : Nat) (s s1 : State) (r2 : Int) (v : IValue),
      s.registers_ = registers_ →
      exec NDEBUG disp code ⟨OpCode.STORE, r, N⟩ s = Outcome.next s1 →
      r2 ≠ r → regGet s.registers_ r2 = some v →
      exec NDEBUG disp code ⟨OpCode.LOAD, r2, N2⟩ s1
        = Outcome.next { stack := s1.stack ++ [v], registers_ := s1.registers_,
                         pc := pcAdd s1.pc 1, objects := s1.objects, cout := s1.cout }) := by
  have hlen : 1 ≤ (registers_.length : Int) := by omega
  refine ⟨regSlot_of_valid registers_ r h1 h2, by omega, ?_, ?_, ?_, ?_, ?_⟩
  · rw [regSlot_of_valid registers_ 1 (by omega) hlen]; rfl
  · rw [regSlot_of_valid registers_ _ hlen (Int.le_refl _)]; simp
  · intro r2 h3 h4 heq
    rw [regSlot_of_valid registers_ r h1 h2, regSlot_of_valid registers_ r2 h3 h4] at heq
    injection heq with heq
    omega
  · intro bytecode hb
    rw [regSlot_of_valid registers_ r h1 h2, hb, InterpreterState_length]
  · intro NDEBUG disp code N N2 s s1 r2 v _ hstore hne hv
    obtain ⟨k, w, _, _, hset, _, _⟩ := exec_STORE_frame NDEBUG disp code r N s s1 hstore
    exact exec_LOAD NDEBUG disp code r2 N2 s1 v (by rw [regGet_regSet_ne hset hne]; exact hv)

theorem reg_addressing_witness :
    regSlot [IValue.int 5, IValue.bool false, IValue.none] 1 = some 2 ∧
    regSlot [IValue.int 5, IValue.bool false, IValue.none] 3 = some 0 :=
  ⟨(reg_addressing [IValue.int 5, IValue.bool false, IValue.none] 1 (by decide) (by decide)).1,
   (reg_addressing [IValue.int 5, IValue.bool false, IValue.none] 3 (by decide) (by decide)).1⟩

/-- C14, as stated: a LOAD of register 0, and a LOAD of register 3 in a register
file of two slots, are no fatal errors. The code has no bounds check: `reg`
forms `registers_.end() - X` and dereferences it, which is outside the vector,
so the behaviour is undefined. -/
theorem out_of_range_is_not_fatal :
    exec debugBuild demoDispatcher demoBytecode ⟨OpCode.LOAD, 0, 0⟩
        (demoState [] [IValue.none, IValue.none]) = Outcome.undefined ∧
    exec debugBuild demoDispatcher demoBytecode ⟨OpCode.LOAD, 3, 0⟩
        (demoState [] [IValue.none, IValue.none]) = Outcome.undefined ∧
    ¬ ∃ (e : Fault) (s1 : State),
        exec debugBuild demoDispatcher demoBytecode ⟨OpCode.LOAD, 0, 0⟩
          (demoState [] [IValue.none, IValue.none]) = Outcome.fatal e s1 := by
  refine ⟨rfl, rfl, ?_⟩
  rintro ⟨e, s1, h⟩
  have h0 : exec debugBuild demoDispatcher demoBytecode ⟨OpCode.LOAD, 0, 0⟩
      (demoState [] [IValue.none, IValue.none]) = Outcome.undefined := rfl
  rw [h0] at h
  cases h

/-- C14, amended. A LOAD, MOVE, STORE or DROPR of a logical register index below 1
or above the size of the register file, and a STOREN whose range contains such
an index, is not bounds-checked: the pass is undefined behaviour (an access
outside `registers_`), and no fatal error is raised. -/
theorem out_of_range_register_undefined (NDEBUG : Bool) (disp : Dispatcher) (code : Bytecode) (X : Int)
    (N : Nat) (s : State)
    (hbad : X < 1 ∨ (s.registers_.length : Int) < X) :
    exec NDEBUG disp code ⟨OpCode.LOAD, X, N⟩ s = Outcome.undefined ∧
    exec NDEBUG disp code ⟨OpCode.MOVE, X, N⟩ s = Outcome.undefined ∧
    exec NDEBUG disp code ⟨OpCode.STORE, X, N⟩ s = Outcome.undefined ∧
    exec NDEBUG disp code ⟨OpCode.DROPR, X, N⟩ s = Outcome.undefined ∧
    (∀ (X0 : Int) (N0 j : Nat), j < N0 → X0 + j = X →
      exec NDEBUG disp code ⟨OpCode.STOREN, X0, N0⟩ s = Outcome.undefined) := by
  refine ⟨?_, ?_, ?_, ?_, ?_⟩
  · simp only [exec, caseLOAD, regGet_invalid s.registers_ X hbad]
  · simp only [exec, caseMOVE, regGet_invalid s.registers_ X hbad]
  · simp only [exec, caseSTORE]
    split
    · rfl
    · simp only [regSet_invalid s.registers_ X _ hbad]
  · simp only [exec, caseDROPR, regSet_invalid s.registers_ X _ hbad]
  · intro X0 N0 j hj hX
    simp only [exec, caseSTOREN,
      storeLoop_invalid X0 N0 s.stack s.registers_ ⟨j, hj, by rw [hX]; exact hbad⟩]

theorem out_of_range_register_undefined_witness :
    exec debugBuild demoDispatcher demoBytecode ⟨OpCode.DROPR, 3, 0⟩
        (demoState [] [IValue.none, IValue.none]) = Outcome.undefined :=
  (out_of_range_register_undefined debugBuild demoDispatcher demoBytecode 3 0
    (demoState [] [IValue.none, IValue.none]) (by decide)).2.2.2.1

/-- C15, as stated: on the stream `[JMP 5, RET]` the first pass of `run` jumps
from `pc = 0` to `pc = 5`; `run` has not halted, `pc` is not below the length 2
of the stream, and the next fetch is outside the stream. -/
theorem pc_leaves_stream :
    runFor debugBuild demoDispatcher demoProgram 1 (initial demoProgram [] [])
      = Outcome.next (State.mk [] [IValue.none, IValue.none] 5 [] []) ∧
    ¬ (5 < demoProgram.instructions_.length) ∧
    step debugBuild demoDispatcher demoProgram (State.mk [] [IValue.none, IValue.none] 5 [] [])
      = Outcome.undefined :=
  ⟨rfl, by decide, rfl⟩

/-- C15, amended. For a stream in which the successors of every instruction lie
inside the stream (`pc + 1` after the opcodes that increment, `pc + X` after
JMP, both after JF and LOOP): every state that `run` reaches while it has not
halted, from a `pc` inside the stream and in particular from `pc = 0` of a
non-empty stream, has `pc` below the length of the stream, so that the next
fetch finds an instruction. -/
theorem pc_invariant (NDEBUG : Bool) (disp : Dispatcher) (code : Bytecode)
    (hwf : successorsInside code.instructions_) :
    (∀ (n : Nat) (s0 s : State), s0.pc < code.instructions_.length →
      runFor NDEBUG disp code n s0 = Outcome.next s →
      s.pc < code.instructions_.length ∧
      ∃ inst : Instruction, code.instructions_[s.pc]? = some inst) ∧
    (∀ (n : Nat) (stack : List IValue) (objects : List (List IValue)) (s : State),
      0 < code.instructions_.length →
      runFor NDEBUG disp code n (initial code stack objects) = Outcome.next s →
      s.pc < code.instructions_.length ∧
      ∃ inst : Instruction, code.instructions_[s.pc]? = some inst) := by
  have key : ∀ (n : Nat) (s0 s : State), s0.pc < code.instructions_.length →
      runFor NDEBUG disp code n s0 = Outcome.next s →
      s.pc < code.instructions_.length ∧
      ∃ inst : Instruction, code.instructions_[s.pc]? = some inst := by
    intro n s0 s h0 hrun
    have h := runFor_pc_inside NDEBUG disp code hwf n s0 s h0 hrun
    exact ⟨h, code.instructions_[s.pc], List.getElem?_eq_getElem h⟩
  refine ⟨key, ?_⟩
  intro n stack objects s hne hrun
  exact key n (initial code stack objects) s hne hrun

theorem pc_invariant_witness :
    (State.mk [IValue.int 42] [IValue.none] 3 [] []).pc < demoJumps.instructions_.length :=
  ((pc_invariant debugBuild demoDispatcher demoJumps (by decide)).2 2 [] []
    (State.mk [IValue.int 42] [IValue.none] 3 [] []) (by decide) rfl).1

/-- C16 (program-counter arithmetic per opcode). After a pass that continues the
loop: for OP, LOAD, MOVE, STORE, STOREN, DROP, DROPR, LOADC, GET_ATTR, SET_ATTR
and LIST_CONSTRUCT the new `pc` is `pc + 1` whatever the operands are; for JMP
it is `pc + X`; for JF it is `pc + 1` on a true and `pc + X` on a false
condition; for LOOP it is `pc + 1` when it continues and `pc + X` when it exits.
No other opcode continues the loop, so every continuing pass sets `pc` to
`pc + 1` or to `pc + X`, and a new `pc` other than `pc + 1` comes from JMP, JF
or LOOP only. Sums are those of `size_t` and equal the integer sums whenever
these fit. -/
theorem pc_arithmetic (NDEBUG : Bool) (disp : Dispatcher) (code : Bytecode) (inst : Instruction) (s s1 : State)
    (h : exec NDEBUG disp code inst s = Outcome.next s1) :
    (inst.op ∈ [OpCode.OP, OpCode.LOAD, OpCode.MOVE, OpCode.STORE, OpCode.STOREN, OpCode.DROP,
        OpCode.DROPR, OpCode.LOADC, OpCode.GET_ATTR, OpCode.SET_ATTR, OpCode.LIST_CONSTRUCT] →
      s1.pc = pcAdd s.pc 1) ∧
    (inst.op = OpCode.JMP → s1.pc = pcAdd s.pc inst.X) ∧
    (inst.op = OpCode.JF → ∃ b : Bool, s.stack.getLast? = some (IValue.bool b) ∧
      s1.pc = pcAdd s.pc (if b = true then 1 else inst.X)) ∧
    (inst.op = OpCode.LOOP → ∃ (t m : Int) (c : Bool),
      s.stack[s.stack.length - (inst.N + 1)]? = some (IValue.int t) ∧
      s.stack[s.stack.length - (inst.N + 1) + 1]? = some (IValue.int m) ∧
      s.stack[s.stack.length - (inst.N + 1) + 2]? = some (IValue.bool c) ∧
      s1.pc = pcAdd s.pc (if t < m ∧ c = true then 1 else inst.X)) ∧
    inst.op ∈ [OpCode.OP, OpCode.LOAD, OpCode.MOVE, OpCode.STORE, OpCode.STOREN, OpCode.DROP,
        OpCode.DROPR, OpCode.LOADC, OpCode.GET_ATTR, OpCode.SET_ATTR, OpCode.LIST_CONSTRUCT,
        OpCode.JMP, OpCode.JF, OpCode.LOOP] ∧
    (s1.pc = pcAdd s.pc 1 ∨ s1.pc = pcAdd s.pc inst.X) ∧
    (s1.pc ≠ pcAdd s.pc 1 →
      inst.op ∈ [OpCode.JMP, OpCode.JF, OpCode.LOOP] ∧ s1.pc = pcAdd s.pc inst.X) ∧
    (s.pc + 1 < 2 ^ 64 → pcAdd s.pc 1 = s.pc + 1) ∧
    (0 ≤ (s.pc : Int) + inst.X → (s.pc : Int) + inst.X < 2 ^ 64 →
      ((pcAdd s.pc inst.X : Nat) : Int) = (s.pc : Int) + inst.X) := by
  have hor : s1.pc = pcAdd s.pc 1 ∨
      (inst.op ∈ [OpCode.JMP, OpCode.JF, OpCode.LOOP] ∧ s1.pc = pcAdd s.pc inst.X) := by
    rcases exec_pc_cases NDEBUG disp code inst s s1 h with
      ⟨_, hpc⟩ | ⟨hop, hpc⟩ | ⟨hop, b, _, hpc⟩ | ⟨hop, t, m, c, _, _, _, hpc⟩
    · exact Or.inl hpc
    · exact Or.inr ⟨by rw [hop]; decide, hpc⟩
    · cases b
      · exact Or.inr ⟨by rw [hop]; decide, by simpa using hpc⟩
      · exact Or.inl (by simpa using hpc)
    · by_cases hc : t < m ∧ c = true
      · exact Or.inl (by rw [hpc, if_pos hc])
      · exact Or.inr ⟨by rw [hop]; decide, by rw [hpc, if_neg hc]⟩
  refine ⟨?_, ?_, ?_, ?_, ?_, ?_, ?_, pcAdd_one s.pc, pcAdd_exact s.pc inst.X⟩
  · intro hmem
    rcases exec_pc_cases NDEBUG disp code inst s s1 h with
      ⟨_, hpc⟩ | ⟨hop, _⟩ | ⟨hop, _⟩ | ⟨hop, _⟩
    · exact hpc
    all_goals (rw [hop] at hmem; exact absurd hmem (by decide))
  · intro hjmp
    rcases exec_pc_cases NDEBUG disp code inst s s1 h with
      ⟨hmem, _⟩ | ⟨_, hpc⟩ | ⟨hop, _⟩ | ⟨hop, _⟩
    · rw [hjmp] at hmem; exact absurd hmem (by decide)
    · exact hpc
    all_goals (rw [hjmp] at hop; cases hop)
  · intro hjf
    rcases exec_pc_cases NDEBUG disp code inst s s1 h with
      ⟨hmem, _⟩ | ⟨hop, _⟩ | ⟨_, hb⟩ | ⟨hop, _⟩
    · rw [hjf] at hmem; exact absurd hmem (by decide)
    · rw [hjf] at hop; cases hop
    · exact hb
    · rw [hjf] at hop; cases hop
  · intro hloop
    rcases exec_pc_cases NDEBUG disp code inst s s1 h with
      ⟨hmem, _⟩ | ⟨hop, _⟩ | ⟨hop, _⟩ | ⟨_, hl⟩
    · rw [hloop] at hmem; exact absurd hmem (by decide)
    · rw [hloop] at hop; cases hop
    · rw [hloop] at hop; cases hop
    · exact hl
  · rcases exec_pc_cases NDEBUG disp code inst s s1 h with
      ⟨hmem, _⟩ | ⟨hop, _⟩ | ⟨hop, _⟩ | ⟨hop, _⟩
    · revert hmem
      generalize inst.op = op
      cases op <;> decide
    all_goals (rw [hop]; decide)
  · rcases hor with h1 | ⟨_, h2⟩
    · exact Or.inl h1
    · exact Or.inr h2
  · intro hne
    rcases hor with h1 | h2
    · exact absurd h1 hne
    · exact h2

theorem pc_arithmetic_witness :
    (State.mk [IValue.int 1] [] 11 [] []).pc = pcAdd 7 4 :=
  ((pc_arithmetic debugBuild demoDispatcher demoBytecode ⟨OpCode.JF, 4, 0⟩
    (demoState [IValue.int 1, IValue.bool false] []) (State.mk [IValue.int 1] [] 11 [] [])
    rfl).2.2.2.2.2.2.1 (by decide)).2

/-- C17 (bounded loop trip count). Start from the window
`[Int i, Int m, Bool true] ++ deps` over `pre` (64-bit `i`, `m`), with a body
that after every continuing LOOP pass only puts `true` back into the condition
slot and returns to the LOOP. Then for every `j < max(0, m - i)` the state before
LOOP pass `j` has the counter `i + j`, that pass continues and hands `i + j` to
the body in the condition slot; before pass number `max(0, m - i)` the counter
is `i + max(0, m - i)` and that pass exits, leaving `pre ++ deps` and `pc + X`.
With `false` in the condition slot a LOOP pass exits whatever the counter is. -/
theorem loop_trip_count (NDEBUG : Bool) (disp : Dispatcher) (code : Bytecode) (X : Int) (N : Nat)
    (pre deps : List IValue) (i m : Int) (registers_ : List IValue) (pcLoop : Nat)
    (objects : List (List IValue)) (cout : List Printed)
    (hN : 2 ≤ N) (hdeps : deps.length = N - 2)
    (hi : -(2 : Int) ^ 63 ≤ i) (hm : m < (2 : Int) ^ 63) :
    (∀ j : Nat, j < (m - i).toNat →
      loopCycles NDEBUG disp code ⟨OpCode.LOOP, X, N⟩ pre.length pcLoop j
          (State.mk (pre ++ [IValue.int i, IValue.int m, IValue.bool true] ++ deps)
            registers_ pcLoop objects cout)
        = some (State.mk (pre ++ [IValue.int (i + j), IValue.int m, IValue.bool true] ++ deps)
            registers_ pcLoop objects cout) ∧
      exec NDEBUG disp code ⟨OpCode.LOOP, X, N⟩
          (State.mk (pre ++ [IValue.int (i + j), IValue.int m, IValue.bool true] ++ deps)
            registers_ pcLoop objects cout)
        = Outcome.next
            (State.mk (pre ++ [IValue.int (i + j + 1), IValue.int m, IValue.int (i + j)] ++ deps)
              registers_ (pcAdd pcLoop 1) objects cout)) ∧
    (loopCycles NDEBUG disp code ⟨OpCode.LOOP, X, N⟩ pre.length pcLoop (m - i).toNat
          (State.mk (pre ++ [IValue.int i, IValue.int m, IValue.bool true] ++ deps)
            registers_ pcLoop objects cout)
        = some (State.mk
            (pre ++ [IValue.int (i + (m - i).toNat), IValue.int m, IValue.bool true] ++ deps)
            registers_ pcLoop objects cout) ∧
      exec NDEBUG disp code ⟨OpCode.LOOP, X, N⟩
          (State.mk
            (pre ++ [IValue.int (i + (m - i).toNat), IValue.int m, IValue.bool true] ++ deps)
            registers_ pcLoop objects cout)
        = Outcome.next (State.mk (pre ++ deps) registers_ (pcAdd pcLoop X) objects cout)) ∧
    (∀ i1 m1 : Int,
      exec NDEBUG disp code ⟨OpCode.LOOP, X, N⟩
          (State.mk (pre ++ [IValue.int i1, IValue.int m1, IValue.bool false] ++ deps)
            registers_ pcLoop objects cout)
        = Outcome.next (State.mk (pre ++ deps) registers_ (pcAdd pcLoop X) objects cout)) := by
  refine ⟨?_, ⟨?_, ?_⟩, ?_⟩
  · intro j hj
    refine ⟨loopCycles_state NDEBUG disp code X N pre deps i m registers_ pcLoop objects cout hN hdeps
      hi hm j (fun _ => by omega), ?_⟩
    exact exec_LOOP_continue NDEBUG disp code X N _ pre deps (i + j) m hN rfl hdeps (by omega) hm
      (by omega)
  · exact loopCycles_state NDEBUG disp code X N pre deps i m registers_ pcLoop objects cout hN hdeps
      hi hm (m - i).toNat (fun h0 => by omega)
  · exact exec_LOOP_exit NDEBUG disp code X N _ pre deps (i + (m - i).toNat) m true hN rfl hdeps
      (by omega)
  · intro i1 m1
    exact exec_LOOP_exit NDEBUG disp code X N _ pre deps i1 m1 false hN rfl hdeps (by simp)

theorem loop_trip_count_witness :
    loopCycles debugBuild demoDispatcher demoBytecode ⟨OpCode.LOOP, 5, 3⟩ 0 7 3
        (State.mk [IValue.int 0, IValue.int 3, IValue.bool true, IValue.int 10] [] 7 [] [])
      = some (State.mk [IValue.int 3, IValue.int 3, IValue.bool true, IValue.int 10] [] 7 [] []) ∧
    exec debugBuild demoDispatcher demoBytecode ⟨OpCode.LOOP, 5, 3⟩
        (State.mk [IValue.int 3, IValue.int 3, IValue.bool true, IValue.int 10] [] 7 [] [])
      = Outcome.next (State.mk [IValue.int 10] [] 12 [] []) :=
  (loop_trip_count debugBuild demoDispatcher demoBytecode 5 3 [] [IValue.int 10] 0 3 [] 7 [] []
    (by decide) rfl (by decide) (by decide)).2.1

/-- C18 (the LOOP counter increment never overflows). For 64-bit values
`trip_count < max_trip_count`, the sum `trip_count + 1` taken in 64-bit signed
arithmetic is the integer `trip_count + 1`, it is at most `max_trip_count` and a
64-bit value, and it is what a continuing LOOP pass stores in the
iteration-count slot. -/
theorem loop_increment_no_overflow (NDEBUG : Bool) (disp : Dispatcher) (code : Bytecode) (X : Int) (N : Nat)
    (s : State) (pre deps : List IValue) (trip_count max_trip_count : Int)
    (hN : 2 ≤ N)
    (hstack : s.stack
      = pre ++ [IValue.int trip_count, IValue.int max_trip_count, IValue.bool true] ++ deps)
    (hdeps : deps.length = N - 2)
    (ht0 : -(2 : Int) ^ 63 ≤ trip_count) (ht1 : trip_count < (2 : Int) ^ 63)
    (hm0 : -(2 : Int) ^ 63 ≤ max_trip_count) (hm1 : max_trip_count < (2 : Int) ^ 63)
    (hlt : trip_count < max_trip_count) :
    wrapInt64 (trip_count + 1) = trip_count + 1 ∧
    trip_count + 1 ≤ max_trip_count ∧
    -(2 : Int) ^ 63 ≤ wrapInt64 (trip_count + 1) ∧ wrapInt64 (trip_count + 1) < (2 : Int) ^ 63 ∧
    exec NDEBUG disp code ⟨OpCode.LOOP, X, N⟩ s
      = Outcome.next
          { stack := pre ++ [IValue.int (wrapInt64 (trip_count + 1)), IValue.int max_trip_count,
                             IValue.int trip_count] ++ deps,
            registers_ := s.registers_, pc := pcAdd s.pc 1, objects := s.objects,
            cout := s.cout } := by
  have hw : wrapInt64 (trip_count + 1) = trip_count + 1 :=
    wrapInt64_exact (trip_count + 1) (by omega) (by omega)
  refine ⟨hw, by omega, by rw [hw]; omega, by rw [hw]; omega, ?_⟩
  rw [hw]
  exact exec_LOOP_continue NDEBUG disp code X N s pre deps trip_count max_trip_count hN hstack hdeps
    ht0 hm1 hlt

theorem loop_increment_no_overflow_witness :
    wrapInt64 (9223372036854775806 + 1) = 9223372036854775806 + 1 :=
  (loop_increment_no_overflow debugBuild demoDispatcher demoBytecode 5 2
    (demoState [IValue.int 9223372036854775806, IValue.int 9223372036854775807,
      IValue.bool true] [])
    [] [] 9223372036854775806 9223372036854775807 (by decide) rfl rfl
    (by decide) (by decide) (by decide) (by decide) (by decide)).1

/-- C19 (STOREN is a descending sequence of STOREs). For X and N ≥ 0 with the
registers X..X+N-1 inside the register file and a stack of at least N values,
one pass of STOREN X N and the passes of `STORE (X+N-1), ..., STORE X` in that
order both continue the run and end with the same stack, the same registers and
the same objects and output; `pc` is `pc + 1` after the STOREN and has been
incremented N times after the STOREs. Without those conditions the two still
agree: one continues exactly when the other does. STOREN X 0 changes only
`pc`. -/
theorem storen_as_stores (NDEBUG : Bool) (disp : Dispatcher) (code : Bytecode) (X : Int) (N : Nat) (s : State)
    (hvalid : ∀ j : Nat, j < N → 1 ≤ X + j ∧ X + j ≤ s.registers_.length)
    (hdepth : N ≤ s.stack.length) :
    (∃ s1 s2 : State,
      exec NDEBUG disp code ⟨OpCode.STOREN, X, N⟩ s = Outcome.next s1 ∧
      execTrace NDEBUG disp code (storeSeq X N) s = some s2 ∧
      s1.stack = s2.stack ∧ s1.registers_ = s2.registers_ ∧
      s1.objects = s2.objects ∧ s1.cout = s2.cout ∧
      s1.pc = pcAdd s.pc 1 ∧
      s2.pc = (fun p => pcAdd p 1)^[N] s.pc ∧
      (s.pc + 1 < 2 ^ 64 → s1.pc = s.pc + 1) ∧
      (s.pc + N < 2 ^ 64 → s2.pc = s.pc + N)) ∧
    (∀ (X0 : Int) (N0 : Nat) (s0 : State),
      (∀ s1 : State, exec NDEBUG disp code ⟨OpCode.STOREN, X0, N0⟩ s0 = Outcome.next s1 →
        ∃ s2 : State, execTrace NDEBUG disp code (storeSeq X0 N0) s0 = some s2 ∧
          s1.stack = s2.stack ∧ s1.registers_ = s2.registers_) ∧
      (∀ s2 : State, execTrace NDEBUG disp code (storeSeq X0 N0) s0 = some s2 →
        ∃ s1 : State, exec NDEBUG disp code ⟨OpCode.STOREN, X0, N0⟩ s0 = Outcome.next s1 ∧
          s1.stack = s2.stack ∧ s1.registers_ = s2.registers_)) ∧
    exec NDEBUG disp code ⟨OpCode.STOREN, X, 0⟩ s
      = Outcome.next { stack := s.stack, registers_ := s.registers_, pc := pcAdd s.pc 1,
                       objects := s.objects, cout := s.cout } := by
  refine ⟨?_, ?_, rfl⟩
  · have hsplit : s.stack = s.stack.take (s.stack.length - N) ++ s.stack.drop (s.stack.length - N) :=
      (List.take_append_drop _ _).symm
    have hlen : (s.stack.drop (s.stack.length - N)).length = N := by
      rw [List.length_drop]; omega
    obtain ⟨registers1, hrun, _⟩ := storeLoop_spec X (s.stack.take (s.stack.length - N))
      (s.stack.drop (s.stack.length - N)) s.registers_ (fun j hj => hvalid j (by omega))
    rw [hlen, ← hsplit] at hrun
    refine ⟨{ stack := s.stack.take (s.stack.length - N), registers_ := registers1,
              pc := pcAdd s.pc 1, objects := s.objects, cout := s.cout },
            { stack := s.stack.take (s.stack.length - N), registers_ := registers1,
              pc := (fun p => pcAdd p 1)^[N] s.pc, objects := s.objects, cout := s.cout },
            ?_, ?_, rfl, rfl, rfl, rfl, rfl, rfl, pcAdd_one s.pc, pcAdd_iterate N s.pc⟩
    · simp only [exec, caseSTOREN, hrun]
    · rw [storeLoop_eq_trace, hrun]
      rfl
  · intro X0 N0 s0
    constructor
    · intro s1 h1
      simp only [exec, caseSTOREN] at h1
      split at h1
      · cases h1
      next stack1 registers1 hrun =>
        cases h1
        exact ⟨{ stack := stack1, registers_ := registers1,
                 pc := (fun p => pcAdd p 1)^[N0] s0.pc, objects := s0.objects,
                 cout := s0.cout },
          by rw [storeLoop_eq_trace, hrun]; rfl, rfl, rfl⟩
    · intro s2 h2
      rw [storeLoop_eq_trace] at h2
      cases hrun : storeLoop X0 N0 s0.stack s0.registers_ with
      | none => rw [hrun] at h2; cases h2
      | some r =>
        obtain ⟨stack1, registers1⟩ := r
        rw [hrun] at h2
        simp only [Option.map_some', Option.some.injEq] at h2
        refine ⟨{ stack := stack1, registers_ := registers1, pc := pcAdd s0.pc 1,
                  objects := s0.objects, cout := s0.cout },
          by simp only [exec, caseSTOREN, hrun], ?_, ?_⟩
        · rw [← h2]
        · rw [← h2]

theorem storen_as_stores_witness :
    ∃ s1 s2 : State,
      exec debugBuild demoDispatcher demoBytecode ⟨OpCode.STOREN, 1, 2⟩
          (demoState [IValue.int 5, IValue.int 7, IValue.int 9] [IValue.none, IValue.none])
        = Outcome.next s1 ∧
      execTrace debugBuild demoDispatcher demoBytecode [⟨OpCode.STORE, 2, 0⟩, ⟨OpCode.STORE, 1, 0⟩]
          (demoState [IValue.int 5, IValue.int 7, IValue.int 9] [IValue.none, IValue.none])
        = some s2 ∧
      s1.stack = s2.stack ∧ s1.registers_ = s2.registers_ := by
  obtain ⟨⟨s1, s2, h1, h2, h3, h4, _⟩, _⟩ :=
    storen_as_stores debugBuild demoDispatcher demoBytecode 1 2
      (demoState [IValue.int 5, IValue.int 7, IValue.int 9] [IValue.none, IValue.none])
      (by intro j hj; simp only [demoState, List.length_cons, List.length_nil]; omega)
      (by decide)
  exact ⟨s1, s2, h1, h2, h3, h4⟩

/-- C20 (register-file frame). A fresh interpreter state has `agg_size_`
registers, all empty. Whatever way a pass of any opcode ends (continuing,
returning or in a fatal error), the register file keeps its length; for every
opcode other than MOVE, STORE, STOREN and DROPR the register file is exactly as
before; and STORE X, DROPR X (and MOVE X) leave every slot other than the slot
of register X as it was. -/
theorem register_file_frame (NDEBUG : Bool) (disp : Dispatcher) (code : Bytecode) (inst : Instruction)
    (s s1 : State)
    (h : (exec NDEBUG disp code inst s).stateOf = some s1) :
    s1.registers_.length = s.registers_.length ∧
    (inst.op ∉ [OpCode.MOVE, OpCode.STORE, OpCode.STOREN, OpCode.DROPR] →
      s1.registers_ = s.registers_) ∧
    ((inst.op = OpCode.STORE ∨ inst.op = OpCode.DROPR ∨ inst.op = OpCode.MOVE) →
      ∀ k2 : Nat, regSlot s.registers_ inst.X ≠ some k2 →
        s1.registers_[k2]? = s.registers_[k2]?) ∧
    (∀ bytecode : Bytecode,
      (InterpreterState bytecode).length = bytecode.agg_size_ ∧
      (∀ v ∈ InterpreterState bytecode, v = IValue.none) ∧
      (initial bytecode s.stack s.objects).registers_ = InterpreterState bytecode) := by
  refine ⟨?_, ?_, ?_, fun b => ⟨InterpreterState_length b, InterpreterState_empty b, rfl⟩⟩
  · rcases stateOf_cases _ s1 h with hn | hr | ⟨e, hf⟩
    · exact exec_next_length NDEBUG disp code inst s s1 hn
    · rw [exec_ret_state NDEBUG disp code inst s s1 hr]
    · rw [exec_fatal_registers NDEBUG disp code inst s s1 e hf]
  · intro hop
    rcases stateOf_cases _ s1 h with hn | hr | ⟨e, hf⟩
    · exact exec_next_registers_same NDEBUG disp code inst s s1 hn hop
    · rw [exec_ret_state NDEBUG disp code inst s s1 hr]
    · exact exec_fatal_registers NDEBUG disp code inst s s1 e hf
  · intro hop k2 hk2
    rcases stateOf_cases _ s1 h with hn | hr | ⟨e, hf⟩
    · exact exec_next_slot NDEBUG disp code inst s s1 hn hop k2 hk2
    · rw [exec_ret_state NDEBUG disp code inst s s1 hr]
    · rw [exec_fatal_registers NDEBUG disp code inst s s1 e hf]

theorem register_file_frame_witness :
    (State.mk [IValue.int 5] [IValue.none, IValue.int 7] 8 [] []).registers_.length
      = (demoState [IValue.int 5, IValue.int 7] [IValue.none, IValue.none]).registers_.length :=
  (register_file_frame debugBuild demoDispatcher demoBytecode ⟨OpCode.STORE, 1, 0⟩
    (demoState [IValue.int 5, IValue.int 7] [IValue.none, IValue.none])
    (State.mk [IValue.int 5] [IValue.none, IValue.int 7] 8 [] []) rfl).1

end LiteInterpreter
